import Mathlib

/-!
Verification of the Intercom → Discord ticket bridge
(`intercom_client.py`, `webhook_handler.py`, `database.py`).

The Python sources are shallowly embedded as executable Lean definitions:

* Python `dict` records become structures; a `dict.get(key, default)`
  on a possibly-absent key becomes an `Option` field read with `getD`.
* Python truthiness on strings (`if s:`) is `s ≠ ""`, on optional
  values it is "present and non-empty"/"present and non-zero".
* SQLite's ticket table is a `List Ticket`; `INSERT OR REPLACE` keyed on
  the primary key `id` removes any row with that id and appends the new
  row, `UPDATE ... WHERE id = ?` maps over the rows.
* The Discord channel ("Display Surface") is the list of ids of the
  messages currently posted; `channel.send` appends a fresh id,
  `message.delete` removes the id, and a failing `fetch_message`
  (id not present) raises, which the handlers swallow (`except: pass`).
* Wall-clock (`datetime.now().isoformat()`) is an explicit `now : String`
  parameter; the local UTC offset used by naive `datetime.timestamp()`
  is an explicit `tz : Int` parameter (seconds east of UTC).
* `hashlib.sha256` / `hmac` are implemented bit-faithfully over byte
  lists (FIPS 180-4 / RFC 2104), with machine words as `Nat` reduced
  mod 2^32.
-/

namespace AduriteHook

/-! ### Python string primitives -/

/-- The six ASCII whitespace characters recognised by Python's `str.strip`
and by the regex class used in `_clean_html` (`\t`, `\n`, `\v`, `\f`,
`\r`, space). -/
def pyIsSpace (c : Char) : Bool :=
  c = ' ' || c = '\t' || c = '\n' || c = Char.ofNat 11 || c = Char.ofNat 12 || c = '\r'

/-- Python `str.strip()` (ASCII whitespace). -/
def pyStrip (s : String) : String :=
  ⟨((s.data.dropWhile pyIsSpace).reverse.dropWhile pyIsSpace).reverse⟩

/-- Truthiness of a Python value that is either a missing key / `None`
(`none`) or a string: `None` and `""` are falsy. -/
def optTruthy : Option String → Bool
  | none => false
  | some s => s ≠ ""

/-- Scan for an occurrence of `pat` as a contiguous subsequence of `l`
(Python's `pat in s` on strings). -/
def pyContains (pat : List Char) (l : List Char) : Bool :=
  match l with
  | [] => pat.isEmpty
  | _ :: rest => l.take pat.length = pat || pyContains pat rest

/-- Python `sep.join(parts)`. -/
def pyJoin (sep : String) : List String → String
  | [] => ""
  | [p] => p
  | p :: rest => p ++ sep ++ pyJoin sep rest

/-- Python `str.title()` restricted to ASCII letters: a letter directly
preceded by a letter is lowercased, any other letter is uppercased. -/
def pyTitleAux : Bool → List Char → List Char
  | _, [] => []
  | prevAlpha, c :: rest =>
    if c.isAlpha then
      (if prevAlpha then c.toLower else c.toUpper) :: pyTitleAux true rest
    else
      c :: pyTitleAux false rest

/-- Python `str.title()` (ASCII). -/
def pyTitle (s : String) : String :=
  ⟨pyTitleAux false s.data⟩

/-- Python `str.replace(a, b)` for single-character `a` (all occurrences). -/
def pyReplaceChar (a : Char) (b : List Char) : List Char → List Char
  | [] => []
  | c :: rest => (if c = a then b else [c]) ++ pyReplaceChar a b rest

/-- Python `str.split(sep)` for a single-character separator: always a
non-empty list of (possibly empty) fields. -/
def pySplitChar (sep : Char) : List Char → List (List Char)
  | [] => [[]]
  | c :: rest =>
    match pySplitChar sep rest with
    | [] => [[c]]
    | h :: t => if c = sep then [] :: h :: t else (c :: h) :: t

/-! ### Ticket store (`database.py`)

`tickets(id PRIMARY KEY, discord_message_id, status, last_updated,
intercom_conversation_id)` becomes a list of rows. -/

structure Ticket where
  id : String
  discord_message_id : Nat
  status : String
  last_updated : String
  intercom_conversation_id : String
deriving DecidableEq, Repr

/-- The rows of the `tickets` table. -/
abbrev TicketStore := List Ticket

/-- Embeds `DatabaseManager.add_ticket`: `INSERT OR REPLACE` keyed on the
primary key `id`. -/
def add_ticket (store : TicketStore) (ticket_id : String) (discord_message_id : Nat)
    (status : String) (now : String) (conversation_id : String) : TicketStore :=
  store.filter (fun r => r.id ≠ ticket_id) ++ [⟨ticket_id, discord_message_id, status, now, conversation_id⟩]

/-- Embeds `DatabaseManager.update_ticket_status`:
`UPDATE tickets SET status = ?, last_updated = ? WHERE id = ?`. -/
def update_ticket_status (store : TicketStore) (ticket_id status now : String) : TicketStore :=
  store.map (fun r =>
    if r.id = ticket_id then { r with status := status, last_updated := now } else r)

/-- Embeds `DatabaseManager.get_ticket`: `SELECT * FROM tickets WHERE id = ?`,
first row or `None`. -/
def get_ticket (store : TicketStore) (ticket_id : String) : Option Ticket :=
  store.find? (fun r => r.id = ticket_id)

/-- Embeds `DatabaseManager.get_ticket_by_conversation`:
`SELECT * FROM tickets WHERE intercom_conversation_id = ?`. -/
def get_ticket_by_conversation (store : TicketStore) (conversation_id : String) : Option Ticket :=
  store.find? (fun r => r.intercom_conversation_id = conversation_id)

/-! ### Handler results

`process_webhook` and the per-topic handlers return one-entry dicts
`{"error"| "info"| "success": message}`. -/

inductive WebhookResult where
  | error (msg : String)
  | info (msg : String)
  | success (msg : String)
deriving DecidableEq, Repr

end AduriteHook

namespace AduriteHook

/-! ### SHA-256 and HMAC (`hashlib.sha256`, `hmac.new(...).hexdigest()`)

Bytes are `Nat < 256`, 32-bit words are `Nat` reduced mod `2^32`
(FIPS 180-4, RFC 2104). -/

/-- Two to the 32nd power. -/
def M32 : Nat := 4294967296

/-- Right rotation of a 32-bit word. -/
def rotr32 (n x : Nat) : Nat := ((x >>> n) ||| (x <<< (32 - n))) % M32

/-- SHA-256 Σ₀. -/
def bSig0 (x : Nat) : Nat := rotr32 2 x ^^^ rotr32 13 x ^^^ rotr32 22 x

/-- SHA-256 Σ₁. -/
def bSig1 (x : Nat) : Nat := rotr32 6 x ^^^ rotr32 11 x ^^^ rotr32 25 x

/-- SHA-256 σ₀. -/
def sSig0 (x : Nat) : Nat := rotr32 7 x ^^^ rotr32 18 x ^^^ (x >>> 3)

/-- SHA-256 σ₁. -/
def sSig1 (x : Nat) : Nat := rotr32 17 x ^^^ rotr32 19 x ^^^ (x >>> 10)

/-- SHA-256 Ch. -/
def shaCh (x y z : Nat) : Nat := (x &&& y) ^^^ ((x ^^^ 4294967295) &&& z)

/-- SHA-256 Maj. -/
def shaMaj (x y z : Nat) : Nat := (x &&& y) ^^^ (x &&& z) ^^^ (y &&& z)

/-- The 64 SHA-256 round constants. -/
def shaK : List Nat :=
  [1116352408, 1899447441, 3049323471, 3921009573, 961987163, 1508970993,
   2453635748, 2870763221, 3624381080, 310598401, 607225278, 1426881987,
   1925078388, 2162078206, 2614888103, 3248222580, 3835390401, 4022224774,
   264347078, 604807628, 770255983, 1249150122, 1555081692, 1996064986,
   2554220882, 2821834349, 2952996808, 3210313671, 3336571891, 3584528711,
   113926993, 338241895, 666307205, 773529912, 1294757372, 1396182291,
   1695183700, 1986661051, 2177026350, 2456956037, 2730485921, 2820302411,
   3259730800, 3345764771, 3516065817, 3600352804, 4094571909, 275423344,
   430227734, 506948616, 659060556, 883997877, 958139571, 1322822218,
   1537002063, 1747873779, 1955562222, 2024104815, 2227730452, 2361852424,
   2428436474, 2756734187, 3204031479, 3329325298]

/-- The SHA-256 initial hash value. -/
def shaH0 : List Nat :=
  [1779033703, 3144134277, 1013904242, 2773480762, 1359893119, 2600822924, 528734635, 1541459225]

/-- Big-endian 8-byte encoding of the bit length. -/
def lenBytes64 (n : Nat) : List Nat :=
  [(n >>> 56) % 256, (n >>> 48) % 256, (n >>> 40) % 256, (n >>> 32) % 256,
   (n >>> 24) % 256, (n >>> 16) % 256, (n >>> 8) % 256, n % 256]

/-- SHA-256 message padding: `0x80`, zeros to 56 mod 64, 8-byte length. -/
def shaPad (msg : List Nat) : List Nat :=
  let r := (msg.length + 1) % 64
  msg ++ [0x80] ++ List.replicate ((120 - r) % 64) 0 ++ lenBytes64 (8 * msg.length)

/-- Big-endian 32-bit words from bytes. -/
def bytesToWords : List Nat → List Nat
  | b0 :: b1 :: b2 :: b3 :: rest =>
    (b0 <<< 24 ||| b1 <<< 16 ||| b2 <<< 8 ||| b3) :: bytesToWords rest
  | _ => []

/-- Split a word list into 16-word blocks (`fuel` bounds the number of
blocks; the word-list length always suffices). -/
def toBlocksAux : Nat → List Nat → List (List Nat)
  | 0, _ => []
  | fuel + 1, ws =>
    if ws.length < 16 then []
    else ws.take 16 :: toBlocksAux fuel (ws.drop 16)

/-- Split a word list into 16-word blocks. -/
def toBlocks (ws : List Nat) : List (List Nat) := toBlocksAux ws.length ws

/-- Append `n` further words of the SHA-256 message schedule. -/
def extendSchedule : List Nat → Nat → List Nat
  | ws, 0 => ws
  | ws, n + 1 =>
    let t := ws.length
    let next := (sSig1 (ws.getD (t - 2) 0) + ws.getD (t - 7) 0 +
                 sSig0 (ws.getD (t - 15) 0) + ws.getD (t - 16) 0) % M32
    extendSchedule (ws ++ [next]) n

/-- One SHA-256 round. -/
def shaRound (st : List Nat) (wk : Nat × Nat) : List Nat :=
  match st with
  | [a, b, c, d, e, f, g, h] =>
    let t1 := (h + bSig1 e + shaCh e f g + wk.2 + wk.1) % M32
    let t2 := (bSig0 a + shaMaj a b c) % M32
    [(t1 + t2) % M32, a, b, c, (d + t1) % M32, e, f, g]
  | other => other

/-- SHA-256 compression of one 16-word block into the running hash. -/
def shaCompress (hsh : List Nat) (block : List Nat) : List Nat :=
  let w := extendSchedule block 48
  let out := (w.zip shaK).foldl shaRound hsh
  List.zipWith (fun x y => (x + y) % M32) hsh out

/-- SHA-256 digest (32 bytes) of a byte list. -/
def sha256Bytes (msg : List Nat) : List Nat :=
  let hs := (toBlocks (bytesToWords (shaPad msg))).foldl shaCompress shaH0
  hs.flatMap (fun w => [(w >>> 24) % 256, (w >>> 16) % 256, (w >>> 8) % 256, w % 256])

/-- Lower-case hex digit. -/
def hexChar (n : Nat) : Char :=
  if n < 10 then Char.ofNat (48 + n) else Char.ofNat (87 + n)

/-- Lower-case hex string of a byte list. -/
def hexOfBytes (bs : List Nat) : String :=
  ⟨bs.flatMap (fun b => [hexChar (b / 16), hexChar (b % 16)])⟩

/-- UTF-8 bytes of a string (`str.encode('utf-8')`). -/
def strBytes (s : String) : List Nat :=
  s.toUTF8.toList.map (fun b => b.toNat)

/-- HMAC-SHA256 (RFC 2104), 32-byte digest. -/
def hmacSha256 (key msg : List Nat) : List Nat :=
  let key0 := if 64 < key.length then sha256Bytes key else key
  let keyPad := key0 ++ List.replicate (64 - key0.length) 0
  let ipad := keyPad.map (fun b => b ^^^ 0x36)
  let opad := keyPad.map (fun b => b ^^^ 0x5c)
  sha256Bytes (opad ++ sha256Bytes (ipad ++ msg))

/-- Embeds `hmac.new(secret.encode(), payload.encode(), hashlib.sha256).hexdigest()`. -/
def hmacSha256Hex (secret payload : String) : String :=
  hexOfBytes (hmacSha256 (strBytes secret) (strBytes payload))

/-- Embeds `WebhookHandler.verify_webhook_signature`.  The configured secret is an
explicit parameter (`Config.INTERCOM_WEBHOOK_SECRET`; `""` encodes the
falsy unset value).  `hmac.compare_digest` is string equality (its
constant-time execution is not modelled). -/
def verify_webhook_signature (secret payload signature : String) : Bool :=
  if secret = "" then
    true
  else
    signature == hmacSha256Hex secret payload

end AduriteHook

namespace AduriteHook

/-! ### Raw Intercom data (`intercom_client.py`)

JSON dicts become structures; an `Option` field is a key that may be
absent (an explicit JSON `null` is not distinguished from an absent key:
every read site in the source treats both by falsy-ness or `.get`
defaults). -/

/-- A JSON `created_at` value: integer, string, or anything else. -/
inductive TsVal where
  | int (n : Int)
  | str (v : String)
  | other
deriving DecidableEq, Repr

/-- A message author dict. -/
structure Author where
  type : Option String
  name : Option String
  email : Option String
  id : Option String
deriving DecidableEq, Repr

/-- The empty dict, default of `part.get("author", ...)`. -/
def emptyAuthor : Author := ⟨none, none, none, none⟩

/-- An attachment dict. -/
structure Attachment where
  type : Option String
  name : Option String
  url : Option String
  size : Option Nat
deriving DecidableEq, Repr

/-- A conversation part (also used for the conversation `source`, which
additionally carries `subject`). -/
structure RawPart where
  part_type : Option String
  author : Option Author
  body : Option String
  attachments : Option (List Attachment)
  created_at : Option TsVal
  subject : Option String
deriving DecidableEq, Repr

/-- The empty dict, default of `conversation.get("source", ...)`. -/
def emptySource : RawPart := ⟨none, none, none, none, none, none⟩

/-- The conversation JSON returned by `GET /conversations/{id}`, with its
nested `conversation_parts.conversation_parts` list. -/
structure Conversation where
  id : Option String
  state : Option String
  source : Option RawPart
  created_at : Option TsVal
  updated_at : Option TsVal
  conversation_parts : List RawPart
deriving DecidableEq, Repr

/-- The remote Intercom API, as seen by one conversation id: `none`
models a non-200 response to `GET /conversations/{id}`. -/
structure IntercomEnv where
  conversation : Option Conversation
deriving DecidableEq, Repr

/-- Embeds `IntercomClient.get_conversation`. -/
def get_conversation (env : IntercomEnv) : Option Conversation :=
  env.conversation

/-- Embeds `IntercomClient.get_conversation_parts`: reads
`conversation_parts.conversation_parts`, `[]` on a failed fetch. -/
def get_conversation_parts (env : IntercomEnv) : List RawPart :=
  match env.conversation with
  | none => []
  | some c => c.conversation_parts

/-- Embeds `IntercomClient.is_conversation_fresh`: no part is an admin comment. -/
def is_conversation_fresh (env : IntercomEnv) : Bool :=
  (get_conversation_parts env).all fun part =>
    ¬(part.part_type = some "comment" ∧ (part.author.getD emptyAuthor).type = some "admin")

/-! ### `IntercomClient._clean_html` -/

/-- Embeds `re.sub(r'<[^>]+>', '', s)`: drop each `<`, at least one non-`>`
character, `>` (leftmost, non-overlapping).  `fuel` bounds the scan and
is initialised to the input length, which always suffices since every
step consumes at least one character. -/
def stripTagsAux : Nat → List Char → List Char
  | 0, l => l
  | _ + 1, [] => []
  | fuel + 1, c :: rest =>
    if c = '<' then
      match rest.findIdx? (fun d => d = '>') with
      | some j => if 1 ≤ j then stripTagsAux fuel (rest.drop (j + 1)) else c :: stripTagsAux fuel rest
      | none => c :: stripTagsAux fuel rest
    else c :: stripTagsAux fuel rest

/-- The tag-stripping pass of `_clean_html`. -/
def stripTags (l : List Char) : List Char := stripTagsAux l.length l

/-- Embeds `html.unescape`, modelled for the five standard XML entities (the
only ones this code base can receive from its own tests; all other
entity references pass through unchanged). -/
def htmlUnescape : List Char → List Char
  | '&' :: 'a' :: 'm' :: 'p' :: ';' :: rest => '&' :: htmlUnescape rest
  | '&' :: 'l' :: 't' :: ';' :: rest => '<' :: htmlUnescape rest
  | '&' :: 'g' :: 't' :: ';' :: rest => '>' :: htmlUnescape rest
  | '&' :: 'q' :: 'u' :: 'o' :: 't' :: ';' :: rest => '"' :: htmlUnescape rest
  | '&' :: '#' :: '3' :: '9' :: ';' :: rest => '\'' :: htmlUnescape rest
  | c :: rest => c :: htmlUnescape rest
  | [] => []

/-- Embeds `re.sub(r'\s+', ' ', s)`: collapse whitespace runs to one space
(`fuel` as in `stripTagsAux`). -/
def collapseWsAux : Nat → List Char → List Char
  | 0, l => l
  | _ + 1, [] => []
  | fuel + 1, c :: rest =>
    if pyIsSpace c then ' ' :: collapseWsAux fuel (rest.dropWhile pyIsSpace)
    else c :: collapseWsAux fuel rest

/-- The whitespace-collapsing pass of `_clean_html`. -/
def collapseWs (l : List Char) : List Char := collapseWsAux l.length l

/-- Embeds `IntercomClient._clean_html`. -/
def clean_html (html_content : String) : String :=
  if html_content = "" then ""
  else pyStrip ⟨collapseWs (htmlUnescape (stripTags html_content.data))⟩

/-! ### `IntercomClient._get_author_display_name` -/

def _get_author_display_name (author : Author) (author_type : String) : String :=
  if optTruthy author.name then author.name.getD ""
  else if optTruthy author.email then author.email.getD ""
  else if optTruthy author.id then author.id.getD ""
  else if author_type = "lead" then "Lead User"
  else if author_type = "user" then "User"
  else if author_type = "admin" then "Admin"
  else if author_type = "bot" then "Fin (AI Bot)"
  else pyTitle author_type ++ " User"

end AduriteHook

namespace AduriteHook

/-! ### Image extraction
(`re.findall(r'<img[^>]+src=["\x27]([^"\x27]+)["\x27][^>]*>', body)`)

The single regex is implemented directly: leftmost, non-overlapping
matches; the greedy `[^>]+` is realised by trying the candidate `src=`
positions right-to-left. -/

/-- Matches `["\x27]`: a double or single quote. -/
def isQuote (c : Char) : Bool := c = '"' || c = '\''

/-- Matches `([^"\x27]+)["\x27]`: a non-empty capture up to a closing quote. -/
def captureUrl (l : List Char) : Option (List Char × List Char) :=
  let cap := l.takeWhile (fun c => ¬ isQuote c)
  if cap.isEmpty then none
  else
    match l.drop cap.length with
    | c :: rest2 => if isQuote c then some (cap, rest2) else none
    | [] => none

/-- After the opening quote: capture, closing quote, then `[^>]*>`
(up to and including the next `>`). Returns the captured URL and the
remainder of the input after the match. -/
def finishTag (l : List Char) : Option (List Char × List Char) :=
  match captureUrl l with
  | none => none
  | some (url, rest) =>
    match rest.drop ((rest.takeWhile (fun c => c ≠ '>')).length) with
    | '>' :: rest3 => some (url, rest3)
    | _ => none

/-- Does `src=` followed by a quote begin here? -/
def startsWithSrcQuote : List Char → Bool
  | 's' :: 'r' :: 'c' :: '=' :: q :: _ => isQuote q
  | _ => false

/-- Candidate offsets `j ≥ 1` (the span of the greedy `[^>]+`) at which
`src=["\x27]` begins, within the run of non-`>` characters following
`<img`. -/
def srcPositions (l : List Char) : List Nat :=
  (List.range ((l.takeWhile (fun c => c ≠ '>')).length + 1)).filter
    (fun j => 1 ≤ j && startsWithSrcQuote (l.drop j))

/-- Backtracking over candidate positions (head first). -/
def tryPositions (l : List Char) : List Nat → Option (List Char × List Char)
  | [] => none
  | j :: rest =>
    match finishTag (l.drop (j + 5)) with
    | some r => some r
    | none => tryPositions l rest

/-- Match the tail of the pattern directly after a literal `<img`;
greediness = largest candidate offset first. -/
def matchImgTag (l : List Char) : Option (List Char × List Char) :=
  tryPositions l (srcPositions l).reverse

/-- All captures of the image regex, leftmost and non-overlapping.
`fuel` bounds the scan; it is initialised to the input length, which
always suffices since every step consumes at least one character. -/
def findallImgAux : Nat → List Char → List (List Char)
  | 0, _ => []
  | fuel + 1, l =>
    match l with
    | [] => []
    | _ :: rest =>
      if l.take 4 = ['<', 'i', 'm', 'g'] then
        match matchImgTag (l.drop 4) with
        | some (url, after) => url :: findallImgAux fuel after
        | none => findallImgAux fuel rest
      else findallImgAux fuel rest

/-- Embeds `re.findall` of the image pattern over a body string. -/
def findallImg (s : String) : List String :=
  (findallImgAux s.data.length s.data).map (fun l => ⟨l⟩)

/-- Filename-derived label of one image URL:
`src.split('/')[-1].split('?')[0]`, then `_`/`-` → space and
`.title()` when it has an extension, else `"Image"`. -/
def imgLabel (src : List Char) : List Char :=
  let filename := ((pySplitChar '/' src).getLastD [])
  let filename := ((pySplitChar '?' filename).headD [])
  if filename ≠ [] ∧ pyContains ['.'] filename then
    pyTitleAux false (pyReplaceChar '-' [' '] (pyReplaceChar '_' [' '] filename))
  else
    "Image".data

/-- One `"📷 [label](url)"` token. -/
def imgLink (src : String) : String :=
  "📷 [" ++ (⟨imgLabel src.data⟩ : String) ++ "](" ++ src ++ ")"

end AduriteHook

namespace AduriteHook

/-! ### Timestamps (`IntercomClient._parse_timestamp`)

`datetime.datetime.fromisoformat` is modelled for the grammar the
source can feed it: `YYYY-MM-DD`, optionally a one-character separator
and `HH:MM[:SS]`, optionally a `±HH:MM[:SS]` offset (fractional seconds
are not modelled).  An aware datetime's `.timestamp()` subtracts its
offset; a naive one is interpreted in the local timezone, passed
explicitly as `tz` (seconds east of UTC). -/

/-- Two decimal digits. -/
def digit2 (a b : Char) : Option Nat :=
  if a.isDigit ∧ b.isDigit then some (10 * (a.toNat - 48) + (b.toNat - 48)) else none

/-- Four decimal digits. -/
def digit4 (a b c d : Char) : Option Nat :=
  match digit2 a b, digit2 c d with
  | some hi, some lo => some (100 * hi + lo)
  | _, _ => none

/-- Gregorian leap year. -/
def isLeap (y : Nat) : Bool := (y % 4 = 0 && y % 100 ≠ 0) || y % 400 = 0

/-- Days in a month. -/
def daysInMonth (y m : Nat) : Nat :=
  if m = 2 then (if isLeap y then 29 else 28)
  else if m = 4 ∨ m = 6 ∨ m = 9 ∨ m = 11 then 30
  else 31

/-- Days between 1970-01-01 and `y-m-d` (civil calendar, `y ≥ 1`). -/
def daysFromCivil (y m d : Nat) : Int :=
  let y' := if m ≤ 2 then y - 1 else y
  let era := y' / 400
  let yoe := y' % 400
  let mp := if 2 < m then m - 3 else m + 9
  let doy := (153 * mp + 2) / 5 + d - 1
  let doe := yoe * 365 + yoe / 4 - yoe / 100 + doy
  (era * 146097 + doe : Int) - 719468

/-- Seconds-east offset from `±HH:MM[:SS]`, `none` if malformed. -/
def parseOffTail (l : List Char) : Option Int :=
  match l with
  | [oh1, oh2, ':', om1, om2] =>
    match digit2 oh1 oh2, digit2 om1 om2 with
    | some oh, some om => if oh ≤ 23 ∧ om ≤ 59 then some (3600 * oh + 60 * om) else none
    | _, _ => none
  | [oh1, oh2, ':', om1, om2, ':', os1, os2] =>
    match digit2 oh1 oh2, digit2 om1 om2, digit2 os1 os2 with
    | some oh, some om, some os =>
      if oh ≤ 23 ∧ om ≤ 59 ∧ os ≤ 59 then some (3600 * oh + 60 * om + os) else none
    | _, _, _ => none
  | _ => none

/-- The tail after `HH:MM`: optional `:SS`, then an optional offset.
Returns `(seconds, offset?)`. -/
def parseTimeTail (l : List Char) : Option (Nat × Option Int) :=
  match l with
  | [] => some (0, none)
  | ':' :: s1 :: s2 :: more =>
    match digit2 s1 s2 with
    | some s =>
      if s ≤ 59 then
        match more with
        | [] => some (s, none)
        | '+' :: offTail =>
          match parseOffTail offTail with
          | some off => some (s, some off)
          | none => none
        | '-' :: offTail =>
          match parseOffTail offTail with
          | some off => some (s, some (-off))
          | none => none
        | _ => none
      else none
    | none => none
  | '+' :: offTail =>
    match parseOffTail offTail with
    | some off => some (0, some off)
    | none => none
  | '-' :: offTail =>
    match parseOffTail offTail with
    | some off => some (0, some (-off))
    | none => none
  | _ => none

/-- Embeds `datetime.datetime.fromisoformat(s).timestamp()` composed with
`int(...)`: epoch seconds, or `none` when `fromisoformat` raises.
A naive datetime is localised with the ambient offset `tz`. -/
def pyFromIsoformat (tz : Int) (l : List Char) : Option Int :=
  match l with
  | y1 :: y2 :: y3 :: y4 :: '-' :: mo1 :: mo2 :: '-' :: d1 :: d2 :: rest =>
    match digit4 y1 y2 y3 y4, digit2 mo1 mo2, digit2 d1 d2 with
    | some y, some mo, some d =>
      if 1 ≤ y ∧ 1 ≤ mo ∧ mo ≤ 12 ∧ 1 ≤ d ∧ d ≤ daysInMonth y mo then
        match rest with
        | [] => some (86400 * daysFromCivil y mo d - tz)
        | _sep :: h1 :: h2 :: ':' :: mi1 :: mi2 :: timeTail =>
          match digit2 h1 h2, digit2 mi1 mi2 with
          | some h, some mi =>
            if h ≤ 23 ∧ mi ≤ 59 then
              match parseTimeTail timeTail with
              | some (s, off) =>
                some (86400 * daysFromCivil y mo d + 3600 * h + 60 * mi + s -
                      (match off with | some o => o | none => tz))
              | none => none
            else none
          | _, _ => none
        | _ => none
      else none
    | _, _, _ => none
  | _ => none

/-- Python's truthiness for a `created_at` value (`if not timestamp`):
`None`, `0` and `""` are falsy. -/
def tsTruthy : TsVal → Bool
  | .int n => n ≠ 0
  | .str s => s ≠ ""
  | .other => false

/-- Python `str.isdigit()` (ASCII digits). -/
def pyIsdigitStr (s : String) : Bool :=
  s ≠ "" && s.data.all Char.isDigit

/-- Embeds `IntercomClient._parse_timestamp`: int → as is; string → ISO parse
when it holds `T` and (`Z` or `+`) after `Z → +00:00` replacement, else
`int(s)` for a digit string, else a plain `fromisoformat` attempt; any
failure or other type → `0`. -/
def _parse_timestamp (tz : Int) (timestamp : TsVal) : Int :=
  if ¬ tsTruthy timestamp then 0
  else
    match timestamp with
    | .int n => n
    | .str s =>
      if pyContains ['T'] s.data ∧ (pyContains ['Z'] s.data ∨ pyContains ['+'] s.data) then
        match pyFromIsoformat tz (pyReplaceChar 'Z' "+00:00".data s.data) with
        | some v => v
        | none => 0
      else if pyIsdigitStr s then (s.toNat?).getD 0
      else
        match pyFromIsoformat tz s.data with
        | some v => v
        | none => 0
    | .other => 0

end AduriteHook

namespace AduriteHook

/-! ### `IntercomClient._extract_message_content` -/

/-- The system/metadata part types that are filtered out. -/
def systemMessageTypes : List String :=
  ["language_detection_details",
   "conversation_attribute_updated_by_admin",
   "conversation_attribute_updated_by_user",
   "conversation_attribute_updated_by_bot",
   "conversation_attribute_updated_by_team",
   "conversation_attribute_updated_by_workspace",
   "conversation_attribute_updated_by_system"]

/-- Renders `s<1024 → "s B"`, `s<1024*1024 → "s//1024 KB"`, else `"s//2^20 MB"`
(the humanised `size_str` for file attachments). -/
def sizeStr (file_size : Nat) : String :=
  if file_size < 1024 then toString file_size ++ " B"
  else if file_size < 1024 * 1024 then toString (file_size / 1024) ++ " KB"
  else toString (file_size / (1024 * 1024)) ++ " MB"

/-- The description string built for one attachment. -/
def attachDesc (a : Attachment) : String :=
  let attachment_type := a.type.getD "unknown"
  if attachment_type = "image" then
    let image_url := a.url.getD ""
    let image_name := a.name.getD "Unnamed image"
    if image_url ≠ "" then "📷 [" ++ image_name ++ "](" ++ image_url ++ ")"
    else "📷 " ++ image_name
  else if attachment_type = "file" then
    let file_name := a.name.getD "Unnamed file"
    let file_size := a.size.getD 0
    if file_size ≠ 0 then "📎 " ++ file_name ++ " (" ++ sizeStr file_size ++ ")"
    else "📎 " ++ file_name
  else
    "📎 " ++ a.name.getD "Attachment"

/-- The trailing `part_type` fallbacks. -/
def extractFallback (part_type : String) (attachments : List Attachment) : Option String :=
  if part_type = "comment" then
    some (if attachments ≠ [] then "[Media content]" else "[Comment]")
  else if part_type = "assignment" then some "[Conversation assigned]"
  else if part_type = "close" then some "[Conversation closed]"
  else if part_type = "open" then some "[Conversation opened]"
  else none

/-- Embeds `IntercomClient._extract_message_content`: `none` = the part is
filtered out of the thread. -/
def _extract_message_content (part : RawPart) : Option String :=
  let part_type := part.part_type.getD ""
  if part_type ∈ systemMessageTypes then none
  else
    let body := part.body.getD ""
    if body ≠ "" ∧ pyStrip body ≠ "" ∧ pyStrip body ≠ "None" then
      if pyContains ['<', 'i', 'm', 'g'] body.data then
        let img_matches := findallImg body
        if img_matches ≠ [] then
          some (pyJoin " | " (img_matches.map imgLink))
        else some (clean_html body)
      else some (clean_html body)
    else
      let attachments := part.attachments.getD []
      if attachments ≠ [] ∧ attachments.map attachDesc ≠ [] then
        some (pyJoin " | " (attachments.map attachDesc))
      else extractFallback part_type attachments

/-! ### Thread reconstruction (`IntercomClient.get_conversation_thread`) -/

/-- One entry of `thread_messages`. -/
structure ThreadMessage where
  author : String
  author_type : String
  message : String
  timestamp_sort : Int
  is_initial : Bool
  part_type : String
  attachments : List Attachment
deriving DecidableEq, Repr

/-- The `ThreadMessage` built from the conversation `source` (when kept). -/
def initialMessages (tz : Int) (initial : RawPart) : List ThreadMessage :=
  if optTruthy initial.body ∨ (initial.attachments.getD []) ≠ [] then
    let author := initial.author.getD emptyAuthor
    let author_type := author.type.getD "unknown"
    let author_name := _get_author_display_name author author_type
    match _extract_message_content initial with
    | some content =>
      if content ≠ "" then
        [{ author := author_name, author_type := author_type, message := content,
           timestamp_sort := _parse_timestamp tz (initial.created_at.getD (.str "Unknown")),
           is_initial := true, part_type := initial.part_type.getD "initial",
           attachments := initial.attachments.getD [] }]
      else []
    | none => []
  else []

/-- The `ThreadMessage` built from one conversation part (when kept). -/
def partMessages (tz : Int) (part : RawPart) : List ThreadMessage :=
  let author := part.author.getD emptyAuthor
  let author_type := author.type.getD "unknown"
  let author_name := _get_author_display_name author author_type
  match _extract_message_content part with
  | some content =>
    if content ≠ "" then
      [{ author := author_name, author_type := author_type, message := content,
         timestamp_sort := _parse_timestamp tz (part.created_at.getD (.str "Unknown")),
         is_initial := false, part_type := part.part_type.getD "unknown",
         attachments := part.attachments.getD [] }]
    else []
  | none => []

/-- Builds `thread_messages` in fetch order, before sorting. -/
def buildThreadMessages (tz : Int) (conversation : Conversation) (parts : List RawPart) :
    List ThreadMessage :=
  initialMessages tz (conversation.source.getD emptySource) ++
    parts.flatMap (partMessages tz)

/-- Embeds `thread_messages.sort(key=lambda x: x.get("timestamp_sort", 0))`:
Python's sort is a stable sort by the key, and every stable sort by the
same key returns the same list; it is modelled by the stable
`List.insertionSort`. -/
def sortThreadMessages (msgs : List ThreadMessage) : List ThreadMessage :=
  List.insertionSort (fun a b => a.timestamp_sort ≤ b.timestamp_sort) msgs

/-! ### `IntercomClient._format_message_group` / `_format_conversation_thread` -/

/-- Format one group of messages of a single author. -/
def _format_message_group (author : String) (messages : List String) : String :=
  if messages.length = 1 then
    "**" ++ author ++ ":** " ++ messages.headD ""
  else
    "**" ++ author ++ ":**\n" ++
      pyJoin "\n" ((List.enumFrom 1 messages).map (fun p => toString p.1 ++ ". " ++ p.2))

/-- The running fold of `_format_conversation_thread`: the Python loop
carries `(formatted_parts, current_author, current_messages)`; a truthy
(`≠ None`, `≠ ""`) author change flushes the open group. -/
def formatThreadStep (st : List String × Option String × List String) (msg : ThreadMessage) :
    List String × Option String × List String :=
  let (parts, current_author, current_messages) := st
  let flushed :=
    match current_author with
    | some a => if a ≠ "" ∧ a ≠ msg.author then parts ++ [_format_message_group a current_messages] else parts
    | none => parts
  let kept :=
    match current_author with
    | some a => if a ≠ "" ∧ a ≠ msg.author then [] else current_messages
    | none => current_messages
  (flushed, some msg.author, kept ++ [msg.message])

/-- Embeds `IntercomClient._format_conversation_thread`. -/
def _format_conversation_thread (messages : List ThreadMessage) : String :=
  if messages = [] then "No messages in conversation"
  else
    let (parts, current_author, current_messages) :=
      messages.foldl formatThreadStep ([], none, [])
    let parts :=
      match current_author with
      | some a => if a ≠ "" ∧ current_messages ≠ [] then parts ++ [_format_message_group a current_messages] else parts
      | none => parts
    pyJoin "\n\n---\n\n" parts

end AduriteHook

namespace AduriteHook

/-! ### `get_conversation_thread` and the webhook handlers -/

/-- The dict returned by `IntercomClient.get_conversation_thread`
(`intercom_client.py` lines 334–344).  Its literal keys are `id`,
`status`, `subject`, `body`, `user`, `created_at`, `updated_at`,
`message_count` and `thread_messages`; in particular there is **no**
`is_fresh` key (unlike `get_conversation_summary`), so the field is the
always-`none` `is_fresh` below.  The display-only `user` dict is not
modelled (it feeds only embed text). -/
structure ConvThreadData where
  id : Option String
  status : Option String
  subject : String
  body : String
  created_at : Option TsVal
  updated_at : Option TsVal
  message_count : Nat
  thread_messages : List ThreadMessage
  is_fresh : Option Bool
deriving DecidableEq, Repr

/-- Embeds `IntercomClient.get_conversation_thread`. -/
def get_conversation_thread (tz : Int) (env : IntercomEnv) : Option ConvThreadData :=
  match get_conversation env with
  | none => none
  | some conversation =>
    let parts := get_conversation_parts env
    let initial := conversation.source.getD emptySource
    let thread_messages := sortThreadMessages (buildThreadMessages tz conversation parts)
    let formatted :=
      if thread_messages ≠ [] then _format_conversation_thread thread_messages
      else "No messages in conversation"
    some { id := conversation.id, status := conversation.state,
           subject := clean_html (initial.subject.getD "No subject"),
           body := formatted,
           created_at := conversation.created_at, updated_at := conversation.updated_at,
           message_count := thread_messages.length,
           thread_messages := thread_messages,
           is_fresh := none }

/-- The ids of the messages currently posted on the Discord channel. -/
abbrev Surface := List Nat

/-- The webhook body after `json.loads`: `topic` and `data.id`. -/
structure WebhookData where
  topic : Option String
  dataId : Option String
deriving DecidableEq, Repr

/-- Embeds `WebhookHandler.handle_new_ticket`.  `newMsgId` is the id Discord
assigns to the posted embed; `extraIds` those of the follow-up
full-thread messages sent when the body exceeds 2000 characters. -/
def handle_new_ticket (tz : Int) (env : IntercomEnv) (conversation_id : String)
    (store : TicketStore) (surface : Surface) (now : String) (newMsgId : Nat)
    (extraIds : List Nat) : WebhookResult × TicketStore × Surface :=
  match get_conversation_thread tz env with
  | none => (.error "Could not fetch conversation data", store, surface)
  | some conversation_data =>
    if ¬ (conversation_data.is_fresh.getD true) then
      (.info "Ticket already has admin replies, skipping", store, surface)
    else
      let surface1 := surface ++ [newMsgId]
      let surface2 :=
        if 2000 < conversation_data.body.length then surface1 ++ extraIds else surface1
      (.success ("New ticket posted to Discord: " ++ conversation_id),
       add_ticket store conversation_id newMsgId "open" now conversation_id,
       surface2)

/-- Embeds `WebhookHandler.handle_user_reply`: edits the posted embed in place
(no surface id change) and may send the long thread as extra messages;
a failing `fetch_message` aborts only the display update. -/
def handle_user_reply (tz : Int) (env : IntercomEnv) (conversation_id : String)
    (store : TicketStore) (surface : Surface) (now : String)
    (extraIds : List Nat) : WebhookResult × TicketStore × Surface :=
  match get_ticket_by_conversation store conversation_id with
  | none => (.info "Ticket not found in database", store, surface)
  | some ticket_data =>
    match get_conversation_thread tz env with
    | none => (.error "Could not fetch updated conversation data", store, surface)
    | some conversation_data =>
      let surface1 :=
        if ticket_data.discord_message_id ∈ surface then
          if 2000 < conversation_data.body.length then surface ++ extraIds else surface
        else surface
      (.success ("User reply handled for ticket: " ++ conversation_id),
       update_ticket_status store ticket_data.id "user_replied" now,
       surface1)

/-- Embeds `WebhookHandler.handle_admin_reply`: removes the posted message
("no longer fresh"); an already-deleted message is tolerated. -/
def handle_admin_reply (conversation_id : String) (store : TicketStore)
    (surface : Surface) (now : String) : WebhookResult × TicketStore × Surface :=
  match get_ticket_by_conversation store conversation_id with
  | none => (.info "Ticket not found in database", store, surface)
  | some ticket_data =>
    (.success ("Admin reply handled for ticket: " ++ conversation_id),
     update_ticket_status store ticket_data.id "admin_replied" now,
     surface.filter (fun m => m ≠ ticket_data.discord_message_id))

/-- Embeds `WebhookHandler.handle_ticket_closed`. -/
def handle_ticket_closed (conversation_id : String) (store : TicketStore)
    (surface : Surface) (now : String) : WebhookResult × TicketStore × Surface :=
  match get_ticket_by_conversation store conversation_id with
  | none => (.info "Ticket not found in database", store, surface)
  | some ticket_data =>
    (.success ("Ticket closure handled: " ++ conversation_id),
     update_ticket_status store ticket_data.id "closed" now,
     surface.filter (fun m => m ≠ ticket_data.discord_message_id))

/-- Embeds `WebhookHandler.handle_ticket_assigned`. -/
def handle_ticket_assigned (conversation_id : String) (store : TicketStore)
    (surface : Surface) (now : String) : WebhookResult × TicketStore × Surface :=
  match get_ticket_by_conversation store conversation_id with
  | none => (.info "Ticket not found in database", store, surface)
  | some ticket_data =>
    (.success ("Ticket assignment handled: " ++ conversation_id),
     update_ticket_status store ticket_data.id "assigned" now,
     surface)

/-- Embeds `WebhookHandler.process_webhook`. -/
def process_webhook (tz : Int) (env : IntercomEnv) (store : TicketStore)
    (surface : Surface) (now : String) (newMsgId : Nat) (extraIds : List Nat)
    (data : WebhookData) : WebhookResult × TicketStore × Surface :=
  if ¬ (optTruthy data.topic ∧ optTruthy data.dataId) then
    (.error "Invalid webhook data", store, surface)
  else
    let topic := data.topic.getD ""
    let conversation_id := data.dataId.getD ""
    if topic = "conversation.user.created" then
      handle_new_ticket tz env conversation_id store surface now newMsgId extraIds
    else if topic = "conversation.user.replied" then
      handle_user_reply tz env conversation_id store surface now extraIds
    else if topic = "conversation.admin.replied" then
      handle_admin_reply conversation_id store surface now
    else if topic = "conversation.admin.closed" then
      handle_ticket_closed conversation_id store surface now
    else if topic = "conversation.admin.assigned" then
      handle_ticket_assigned conversation_id store surface now
    else
      (.info ("Unhandled topic: " ++ topic), store, surface)

/-- HTTP statuses of `webhook_endpoint` (the 500 catch-all is
unreachable in the embedding: every handler is total). -/
inductive HttpResponse where
  | unauthorized
  | badRequest
  | ok (result : WebhookResult)
deriving DecidableEq, Repr

/-- Embeds `webhook_endpoint`: reads `X-Hub-Signature-256` (default `''`),
rejects a non-empty mismatching signature with 401, then hands the
parsed JSON to `process_webhook`.  `json.loads body` is an external
library call whose outcome is the explicit `parsed` argument
(`none` = `JSONDecodeError` → 400); that the 401 answer is produced
before JSON parsing shows up as independence from `parsed`. -/
def webhook_endpoint (secret : String) (tz : Int) (env : IntercomEnv)
    (store : TicketStore) (surface : Surface) (now : String) (newMsgId : Nat)
    (extraIds : List Nat) (body : String) (sigHeader : Option String)
    (parsed : Option WebhookData) : HttpResponse × TicketStore × Surface :=
  let signature := sigHeader.getD ""
  if signature ≠ "" ∧ ¬ verify_webhook_signature secret body signature then
    (.unauthorized, store, surface)
  else
    match parsed with
    | none => (.badRequest, store, surface)
    | some data =>
      let (r, s, f) := process_webhook tz env store surface now newMsgId extraIds data
      (.ok r, s, f)

end AduriteHook

namespace AduriteHook

/-! ### Statement-side notions

The following definitions formalise the language of the specification's
properties (they are not translations of source code): ISO-timestamp
string builders, the separator-splitting of a rendered thread, and the
contiguous same-author runs of a message list. -/

/-- Two-digit zero-padded decimal. -/
def pad2 (n : Nat) : List Char := [Char.ofNat (48 + n / 10), Char.ofNat (48 + n % 10)]

/-- Four-digit zero-padded decimal. -/
def pad4 (n : Nat) : List Char := pad2 (n / 100) ++ pad2 (n % 100)

/-- Builds `YYYY-MM-DDTHH:MM:SS`. -/
def isoDT (y mo d h mi s : Nat) : List Char :=
  pad4 y ++ '-' :: (pad2 mo ++ '-' :: (pad2 d ++ 'T' :: (pad2 h ++ ':' :: (pad2 mi ++ ':' :: pad2 s))))

/-- Builds `YYYY-MM-DDTHH:MM:SSZ`. -/
def isoZstr (y mo d h mi s : Nat) : String := ⟨isoDT y mo d h mi s ++ ['Z']⟩

/-- Builds `YYYY-MM-DDTHH:MM:SS+HH:MM`. -/
def isoPlusStr (y mo d h mi s oh om : Nat) : String :=
  ⟨isoDT y mo d h mi s ++ '+' :: (pad2 oh ++ ':' :: pad2 om)⟩

/-- Epoch seconds of a UTC civil datetime. -/
def epochOfUTC (y mo d h mi s : Nat) : Int :=
  86400 * daysFromCivil y mo d + 3600 * h + 60 * mi + s

/-- The visible separator `"\n\n---\n\n"` as characters. -/
def sepChars : List Char := ['\n', '\n', '-', '-', '-', '\n', '\n']

/-- Split on the 7-character separator (leftmost, non-overlapping) —
the "splitting the rendered body" of the round-trip property. -/
def splitOnSep (l : List Char) : List (List Char) :=
  match l with
  | [] => [[]]
  | c :: rest =>
    if (c :: rest).take 7 = sepChars then [] :: splitOnSep ((c :: rest).drop 7)
    else
      match splitOnSep rest with
      | [] => [[c]]
      | h :: t => (c :: h) :: t
termination_by l.length
decreasing_by
  all_goals simp only [List.length_drop, List.length_cons]
  all_goals omega

/-- Join segments with the separator (list-level `"sep".join`). -/
def joinSep : List (List Char) → List Char
  | [] => []
  | [p] => p
  | p :: rest => p ++ sepChars ++ joinSep rest

/-- Two consecutive newlines occur somewhere. -/
def hasDD : List Char → Bool
  | [] => false
  | [_] => false
  | c :: d :: l => (c = '\n' && d = '\n') || hasDD (d :: l)

/-- The contiguous same-author runs of a message list, as
`(author, messages of the run)` pairs. -/
def groupRuns : List ThreadMessage → List (String × List String)
  | [] => []
  | m :: rest =>
    match groupRuns rest with
    | [] => [(m.author, [m.message])]
    | (a, ms) :: t =>
      if m.author = a then (a, m.message :: ms) :: t
      else (m.author, [m.message]) :: (a, ms) :: t

/-- Prepend a partial run to a run list, merging with an adjacent equal
author. -/
def consRun (a : String) (ms : List String) : List (String × List String) → List (String × List String)
  | [] => [(a, ms)]
  | (b, ns) :: t => if a = b then (a, ms ++ ns) :: t else (a, ms) :: (b, ns) :: t

/-- Join segments with a single newline (list-level `"\n".join`). -/
def joinNL : List (List Char) → List Char
  | [] => []
  | [p] => p
  | p :: rest => p ++ '\n' :: joinNL rest

/-- The final flush of the `_format_conversation_thread` loop applied
to the fold's end state. -/
def finishFold (st : List String × Option String × List String) : List String :=
  match st.2.1 with
  | some a => if a ≠ "" ∧ st.2.2 ≠ [] then st.1 ++ [_format_message_group a st.2.2] else st.1
  | none => st.1

/-! ### Concrete fixtures -/

/-- A user author. -/
def userAuthor : Author := ⟨some "user", some "Bob", none, none⟩

/-- An admin author. -/
def adminAuthor : Author := ⟨some "admin", some "Alice", none, none⟩

/-- The opening user message of the fixture conversation. -/
def freshSource : RawPart := ⟨none, some userAuthor, some "Help me", none, some (.int 50), some "Subj"⟩

/-- An admin comment part: its presence makes the conversation not fresh. -/
def adminReplyPart : RawPart := ⟨some "comment", some adminAuthor, some "Hello", none, some (.int 100), none⟩

/-- A conversation that is *not* fresh: an admin has already replied. -/
def envNonFresh : IntercomEnv :=
  ⟨some ⟨some "c1", some "open", some freshSource, some (.int 40), some (.int 100), [adminReplyPart]⟩⟩

/-- A user part with a given body and `created_at`. -/
def userPart (body : String) (ts : TsVal) : RawPart :=
  ⟨some "comment", some userAuthor, some body, none, some ts, none⟩

/-- A conversation whose parts arrive in the order
`[t2, t0 (unparsable), t1]`. -/
def ordConv : Conversation :=
  ⟨some "c2", some "open", none, none, none,
    [userPart "m2" (.int 200), userPart "m0" (.str "garbage"), userPart "m1" (.int 100)]⟩

/-- The remote side serving `ordConv`. -/
def envOrder : IntercomEnv := ⟨some ordConv⟩

/-- A ticket row for the witness scenarios. -/
def ticket0 : Ticket := ⟨"c1", 5, "open", "T0", "c1"⟩

/-- A store holding exactly `ticket0`. -/
def store0 : TicketStore := [ticket0]

/-- A part whose only content is its attachment list. -/
def mkAttachPart (atts : List Attachment) : RawPart :=
  ⟨some "comment", none, none, some atts, none, none⟩

/-- A part whose body is the bare `<img>` tag (no `src`). -/
def bareImgPart : RawPart := ⟨some "comment", none, some "<img>", none, none, none⟩

/-- A part whose body is one well-formed inline image. -/
def oneImgPart : RawPart :=
  ⟨some "comment", none, some "<img src=\"http://a/cat_pic.jpg\">", none, none, none⟩

/-- A single message whose content contains the separator. -/
def cexMsgs : List ThreadMessage := [⟨"A", "user", "x\n\n---\n\ny", 0, true, "comment", []⟩]

end AduriteHook

namespace AduriteHook

/-! ## Claims -/

/-- C1 (code bug): the claim says a `conversation.user.created` webhook
for a non-fresh conversation (an admin already replied) is a no-op.  The
code disagrees: `handle_new_ticket` tests
`conversation_data.get('is_fresh', True)`, but the dict built by
`get_conversation_thread` never contains an `is_fresh` key (only
`get_conversation_summary` sets one), so the guard defaults to `True`
and the skip branch is dead.  On the fixture conversation, which is not
fresh (`is_conversation_fresh = false`), the webhook still posts a
Discord message (id 7 appears on the surface) and inserts an `open`
ticket row. -/
theorem C1_nonfresh_created_still_posts :
    is_conversation_fresh envNonFresh = false
  ∧ (get_conversation_thread 0 envNonFresh).map ConvThreadData.is_fresh = some none
  ∧ process_webhook 0 envNonFresh [] [] "T1" 7 []
      ⟨some "conversation.user.created", some "c1"⟩ =
      (.success "New ticket posted to Discord: c1",
       [⟨"c1", 7, "open", "T1", "c1"⟩], [7]) := by
  refine ⟨rfl, rfl, rfl⟩

end AduriteHook

namespace AduriteHook

/-- C9: any of the four ticket-lifecycle topics whose conversation id
has no ticket row produces the informational not-found result, not an
error, and leaves both the Ticket Store and the Display Surface
unchanged. -/
theorem C9_unknown_ticket_soft_noop (tz : Int) (env : IntercomEnv) (store : TicketStore)
    (surface : Surface) (now : String) (newMsgId : Nat) (extraIds : List Nat)
    (topic conversation_id : String)
    (htopic : topic ∈ ["conversation.user.replied", "conversation.admin.replied",
      "conversation.admin.closed", "conversation.admin.assigned"])
    (hcid : conversation_id ≠ "")
    (hmiss : get_ticket_by_conversation store conversation_id = none) :
    process_webhook tz env store surface now newMsgId extraIds ⟨some topic, some conversation_id⟩ =
      (.info "Ticket not found in database", store, surface) := by
  simp only [List.mem_cons, List.not_mem_nil, or_false] at htopic
  rcases htopic with h | h | h | h <;> subst h <;>
    simp [process_webhook, optTruthy, handle_user_reply, handle_admin_reply,
      handle_ticket_closed, handle_ticket_assigned, hmiss, hcid]

/-- Witness for C9 at a concrete input: an empty store, topic
`conversation.admin.closed`, conversation id `c9`. -/
theorem C9_witness :
    get_ticket_by_conversation [] "c9" = none ∧
    process_webhook 0 ⟨none⟩ [] [] "T" 0 [] ⟨some "conversation.admin.closed", some "c9"⟩ =
      (.info "Ticket not found in database", [], []) :=
  ⟨rfl, C9_unknown_ticket_soft_noop 0 ⟨none⟩ [] [] "T" 0 [] _ _ (by decide) (by decide) rfl⟩

/-- C10: with a secret configured, a request with no
`X-Hub-Signature-256` header skips verification entirely: it is never
answered 401, and it behaves exactly as if no secret were configured;
401 arises precisely for a present non-empty signature that fails
verification. -/
theorem C10_missing_signature_bypasses_verification (secret : String) (tz : Int)
    (env : IntercomEnv) (store : TicketStore) (surface : Surface) (now : String)
    (newMsgId : Nat) (extraIds : List Nat) (body : String) (parsed : Option WebhookData) :
    (webhook_endpoint secret tz env store surface now newMsgId extraIds body none parsed).1 ≠ .unauthorized
  ∧ webhook_endpoint secret tz env store surface now newMsgId extraIds body none parsed =
      webhook_endpoint "" tz env store surface now newMsgId extraIds body none parsed
  ∧ ∀ sig : String,
      ((webhook_endpoint secret tz env store surface now newMsgId extraIds body (some sig) parsed).1 = .unauthorized
        ↔ sig ≠ "" ∧ verify_webhook_signature secret body sig = false) := by
  refine ⟨?_, ?_, ?_⟩
  · cases parsed <;> simp [webhook_endpoint]
  · simp [webhook_endpoint]
  · intro sig
    by_cases hs : sig = ""
    · subst hs
      cases parsed <;> simp [webhook_endpoint]
    · by_cases hv : verify_webhook_signature secret body sig
      · cases parsed <;> simp [webhook_endpoint, hs, hv]
      · simp [webhook_endpoint, hs, hv]

end AduriteHook

namespace AduriteHook

/-- Looking a conversation up after a status update finds the updated
row: the update never changes `intercom_conversation_id`. -/
theorem get_by_conversation_update (store : TicketStore) (tid status now cid : String) :
    get_ticket_by_conversation (update_ticket_status store tid status now) cid =
      (get_ticket_by_conversation store cid).map
        (fun r => if r.id = tid then { r with status := status, last_updated := now } else r) := by
  unfold get_ticket_by_conversation update_ticket_status
  rw [List.find?_map]
  have hp : ((fun r : Ticket => decide (r.intercom_conversation_id = cid)) ∘
      fun r : Ticket => if r.id = tid then { r with status := status, last_updated := now } else r) =
      fun r : Ticket => decide (r.intercom_conversation_id = cid) := by
    funext r
    by_cases h : r.id = tid <;> simp [h]
  rw [hp]

/-- Updating the same ticket to the same status twice is the same as
once. -/
theorem update_ticket_status_idem (store : TicketStore) (tid status now : String) :
    update_ticket_status (update_ticket_status store tid status now) tid status now =
      update_ticket_status store tid status now := by
  unfold update_ticket_status
  rw [List.map_map]
  congr 1
  funext r
  by_cases h : r.id = tid <;> simp [h]

/-- C3: re-delivering a `conversation.admin.closed` webhook for a
ticket present in the store returns the full first-delivery end state
again together with a success result (the deletion of the already
removed message is swallowed), and the stored row's status is
`closed`. -/
theorem C3_admin_closed_idempotent (store : TicketStore) (surface : Surface)
    (conversation_id now : String) (t : Ticket)
    (h : get_ticket_by_conversation store conversation_id = some t) :
    handle_ticket_closed conversation_id
        (handle_ticket_closed conversation_id store surface now).2.1
        (handle_ticket_closed conversation_id store surface now).2.2 now =
      (WebhookResult.success ("Ticket closure handled: " ++ conversation_id),
        (handle_ticket_closed conversation_id store surface now).2.1,
        (handle_ticket_closed conversation_id store surface now).2.2)
  ∧ get_ticket_by_conversation (handle_ticket_closed conversation_id store surface now).2.1
      conversation_id = some { t with status := "closed", last_updated := now } := by
  have h1 : handle_ticket_closed conversation_id store surface now =
      (WebhookResult.success ("Ticket closure handled: " ++ conversation_id),
        update_ticket_status store t.id "closed" now,
        surface.filter (fun m => m ≠ t.discord_message_id)) := by
    simp [handle_ticket_closed, h]
  have h2 : get_ticket_by_conversation (update_ticket_status store t.id "closed" now)
      conversation_id = some { t with status := "closed", last_updated := now } := by
    rw [get_by_conversation_update, h]
    simp
  constructor
  · rw [h1]
    simp only [handle_ticket_closed, h2]
    rw [update_ticket_status_idem]
    simp [List.filter_filter]
  · rw [h1, h2]

/-- Witness for C3 at a concrete input: store `[ticket0]`, surface
`[5]`, conversation `c1`. -/
theorem C3_witness :
    get_ticket_by_conversation store0 "c1" = some ticket0 ∧
    (handle_ticket_closed "c1" (handle_ticket_closed "c1" store0 [5] "T1").2.1
        (handle_ticket_closed "c1" store0 [5] "T1").2.2 "T1" =
      (WebhookResult.success ("Ticket closure handled: " ++ "c1"),
        (handle_ticket_closed "c1" store0 [5] "T1").2.1,
        (handle_ticket_closed "c1" store0 [5] "T1").2.2)
    ∧ get_ticket_by_conversation (handle_ticket_closed "c1" store0 [5] "T1").2.1 "c1" =
        some { ticket0 with status := "closed", last_updated := "T1" }) :=
  ⟨rfl, C3_admin_closed_idempotent store0 [5] "c1" "T1" ticket0 rfl⟩

end AduriteHook

namespace AduriteHook

/-- C2: with a secret configured, verification succeeds exactly when
the supplied signature equals the HMAC-SHA256 hex digest of the raw
body under the secret; consequently the correct digest of one body
fails on every body with a different digest (in particular on any
mutation that changes the digest); and a present-but-mismatched
signature makes the endpoint answer 401 with the state untouched,
uniformly in the outcome of JSON parsing — i.e. before the body is
parsed. -/
theorem C2_signature_verification (secret body sig : String) (hs : secret ≠ "") :
    (verify_webhook_signature secret body sig = true ↔ sig = hmacSha256Hex secret body)
  ∧ (∀ body2 : String, hmacSha256Hex secret body2 ≠ hmacSha256Hex secret body →
      verify_webhook_signature secret body2 (hmacSha256Hex secret body) = false)
  ∧ (∀ (tz : Int) (env : IntercomEnv) (store : TicketStore) (surface : Surface)
      (now : String) (newMsgId : Nat) (extraIds : List Nat) (parsed : Option WebhookData),
      sig ≠ "" → sig ≠ hmacSha256Hex secret body →
      webhook_endpoint secret tz env store surface now newMsgId extraIds body (some sig) parsed =
        (.unauthorized, store, surface)) := by
  refine ⟨?_, ?_, ?_⟩
  · simp [verify_webhook_signature, hs]
  · intro body2 hne
    have hv : verify_webhook_signature secret body2 (hmacSha256Hex secret body) =
        (hmacSha256Hex secret body == hmacSha256Hex secret body2) := by
      simp [verify_webhook_signature, hs]
    rw [hv, beq_eq_false_iff_ne]
    intro h
    exact hne h.symm
  · intro tz env store surface now newMsgId extraIds parsed hsig hmis
    simp [webhook_endpoint, verify_webhook_signature, hs, hsig, hmis]

/-- Witness for C2 at a concrete input: secret `"s"`, body `"b"`. -/
theorem C2_witness :
    ("s" : String) ≠ ""
  ∧ verify_webhook_signature "s" "b" (hmacSha256Hex "s" "b") = true
  ∧ (verify_webhook_signature "s" "b" "deadbeef" = true ↔ "deadbeef" = hmacSha256Hex "s" "b") :=
  ⟨by decide, ((C2_signature_verification "s" "b" (hmacSha256Hex "s" "b") (by decide)).1).mpr rfl,
   (C2_signature_verification "s" "b" "deadbeef" (by decide)).1⟩

end AduriteHook

namespace AduriteHook

/-- C8 counterexample: a zero-byte file attachment is falsy in the
source's `if file_size:` guard, so the extractor renders it with **no**
size string at all — not with the `B` unit the claim requires for
`s < 1024`. -/
theorem C8_counterexample_zero_size :
    _extract_message_content (mkAttachPart [⟨some "file", some "report.pdf", none, some 0⟩]) =
      some "📎 report.pdf"
  ∧ ("📎 report.pdf" : String) ≠ "📎 report.pdf (0 B)" := by
  exact ⟨rfl, by decide⟩

/-- C8 (amended to positive sizes): for every non-empty attachment list
the extractor renders the joined per-attachment descriptions, and a
file attachment of size `s ≥ 1` is rendered with the humanised size:
`B` below 1024, `KB` with `s / 1024` below 1048576, `MB` with
`s / 1048576` above, all with floor division. -/
theorem C8_file_size_humanised (atts : List Attachment) (hne0 : atts ≠ [])
    (name : Option String) (s : Nat) (hs : 1 ≤ s) :
    _extract_message_content (mkAttachPart atts) = some (pyJoin " | " (atts.map attachDesc))
  ∧ attachDesc ⟨some "file", name, none, some s⟩ =
      "📎 " ++ name.getD "Unnamed file" ++ " (" ++ sizeStr s ++ ")"
  ∧ (s < 1024 → sizeStr s = toString s ++ " B")
  ∧ (1024 ≤ s → s < 1048576 → sizeStr s = toString (s / 1024) ++ " KB")
  ∧ (1048576 ≤ s → sizeStr s = toString (s / 1048576) ++ " MB") := by
  refine ⟨?_, ?_, ?_, ?_, ?_⟩
  · simp [_extract_message_content, mkAttachPart, systemMessageTypes, hne0]
  · have hz : s ≠ 0 := by omega
    simp [attachDesc, hz]
  · intro h
    simp [sizeStr, h]
  · intro h1 h2
    have : ¬ s < 1024 := by omega
    simp [sizeStr, this, h2]
  · intro h1
    have h2 : ¬ s < 1024 := by omega
    have h3 : ¬ s < 1024 * 1024 := by omega
    simp [sizeStr, h2, h3]

/-- Witness for C8 at a concrete input: one 5000-byte file. -/
theorem C8_witness :
    ([(⟨some "file", some "report.pdf", none, some 5000⟩ : Attachment)] ≠ ([] : List Attachment))
  ∧ (1 ≤ 5000)
  ∧ _extract_message_content (mkAttachPart [⟨some "file", some "report.pdf", none, some 5000⟩]) =
      some (pyJoin " | " ([(⟨some "file", some "report.pdf", none, some 5000⟩ : Attachment)].map attachDesc))
  ∧ sizeStr 5000 = toString (5000 / 1024) ++ " KB" :=
  ⟨by decide, by decide,
   (C8_file_size_humanised [⟨some "file", some "report.pdf", none, some 5000⟩] (by decide)
     (some "report.pdf") 5000 (by decide)).1,
   (C8_file_size_humanised [⟨some "file", some "report.pdf", none, some 5000⟩] (by decide)
     (some "report.pdf") 5000 (by decide)).2.2.2.1 (by decide) (by decide)⟩

/-- C7 counterexample: the body `"<img>"` contains an `<img>` tag but
the extraction regex (which requires a quoted `src`) finds nothing, so
the extractor falls through to plain-text HTML stripping and returns a
string with no `📷` link token at all. -/
theorem C7_counterexample_bare_img :
    pyContains ['<', 'i', 'm', 'g'] "<img>".data = true
  ∧ findallImg "<img>" = []
  ∧ _extract_message_content bareImgPart = some (clean_html "<img>")
  ∧ clean_html "<img>" = ""
  ∧ pyContains "📷".data "".data = false := by
  exact ⟨rfl, rfl, rfl, rfl, rfl⟩

/-- C7 (amended to bodies on which the image pattern matches): whenever
the body is truthy, contains `<img`, and the regex captures the
non-empty list `us`, extraction returns exactly the `us`-indexed link
tokens joined by `" | "` — one token per match, never the stripping
path. -/
theorem C7_img_with_src_links (p : RawPart) (body : String) (us : List String)
    (hpt : (p.part_type.getD "") ∉ systemMessageTypes)
    (hb : p.body = some body)
    (h1 : body ≠ "") (h2 : pyStrip body ≠ "") (h3 : pyStrip body ≠ "None")
    (himg : pyContains ['<', 'i', 'm', 'g'] body.data = true)
    (hm : findallImg body = us) (hne : us ≠ []) :
    _extract_message_content p = some (pyJoin " | " (us.map imgLink))
  ∧ (us.map imgLink).length = us.length := by
  constructor
  · simp [_extract_message_content, hb, h1, h2, h3, himg, hm, hne, hpt]
  · simp

/-- Witness for C7 at a concrete input: one inline image with a quoted
`src`. -/
theorem C7_witness :
    findallImg "<img src=\"http://a/cat_pic.jpg\">" = ["http://a/cat_pic.jpg"]
  ∧ _extract_message_content oneImgPart =
      some (pyJoin " | " (["http://a/cat_pic.jpg"].map imgLink))
  ∧ pyJoin " | " (["http://a/cat_pic.jpg"].map imgLink) =
      "📷 [Cat Pic.Jpg](http://a/cat_pic.jpg)" :=
  ⟨rfl,
   (C7_img_with_src_links oneImgPart "<img src=\"http://a/cat_pic.jpg\">" ["http://a/cat_pic.jpg"]
     (by decide) rfl (by decide) (by decide) (by decide) (by decide) rfl (by decide)).1,
   rfl⟩

end AduriteHook

namespace AduriteHook

/-- The sort produces a list that is pairwise nondecreasing in
`timestamp_sort`. -/
theorem sorted_sortThreadMessages (msgs : List ThreadMessage) :
    List.Pairwise (fun a b : ThreadMessage => a.timestamp_sort ≤ b.timestamp_sort)
      (sortThreadMessages msgs) := by
  haveI : IsTotal ThreadMessage (fun a b : ThreadMessage => a.timestamp_sort ≤ b.timestamp_sort) :=
    ⟨fun a b => Int.le_total a.timestamp_sort b.timestamp_sort⟩
  haveI : IsTrans ThreadMessage (fun a b : ThreadMessage => a.timestamp_sort ≤ b.timestamp_sort) :=
    ⟨fun _ _ _ hab hbc => le_trans hab hbc⟩
  exact List.sorted_insertionSort _ msgs

/-- Stability: the sublist of messages with any fixed sort key is
unchanged by the sort (equal keys keep fetch order). -/
theorem sortThreadMessages_filter_key (msgs : List ThreadMessage) (k : Int) :
    (sortThreadMessages msgs).filter (fun m => m.timestamp_sort == k) =
      msgs.filter (fun m => m.timestamp_sort == k) := by
  have hc : List.Sublist (msgs.filter (fun m => m.timestamp_sort == k)) msgs :=
    List.filter_sublist msgs
  have hr : (msgs.filter (fun m => m.timestamp_sort == k)).Pairwise
      (fun a b : ThreadMessage => a.timestamp_sort ≤ b.timestamp_sort) := by
    rw [List.pairwise_iff_forall_sublist]
    intro a b hab
    have ha : a ∈ msgs.filter (fun m => m.timestamp_sort == k) := hab.subset (by simp)
    have hb : b ∈ msgs.filter (fun m => m.timestamp_sort == k) := hab.subset (by simp)
    have ha2 := (List.mem_filter.mp ha).2
    have hb2 := (List.mem_filter.mp hb).2
    simp only [beq_iff_eq] at ha2 hb2
    rw [ha2, hb2]
  have hsub := List.sublist_insertionSort hr hc
  have hsub2 := hsub.filter (fun m => m.timestamp_sort == k)
  rw [List.filter_filter] at hsub2
  have heq : (fun m : ThreadMessage => (m.timestamp_sort == k) && (m.timestamp_sort == k)) =
      fun m : ThreadMessage => m.timestamp_sort == k := by
    funext m
    exact Bool.and_self _
  rw [heq] at hsub2
  have hperm : List.Perm ((sortThreadMessages msgs).filter (fun m => m.timestamp_sort == k))
      (msgs.filter (fun m => m.timestamp_sort == k)) :=
    (List.perm_insertionSort _ msgs).filter _
  exact (hsub2.eq_of_length hperm.length_eq.symm).symm

/-- C4: the retained thread messages are stably sorted by `sortKey`
ascending: the result is pairwise nondecreasing, the fetch order of
equal keys is preserved, and — when every key is nonnegative, i.e.
unparsable timestamps are exactly the key-0 ones — no key-0 message
follows a nonzero-key one; on the fetch order
`[t2, t0 (unparsable), t1]` the reconstructed thread is
`[t0, t1, t2]`. -/
theorem C4_thread_sorted_stable (tz : Int) (conversation : Conversation) (parts : List RawPart)
    (hpos : ∀ m ∈ buildThreadMessages tz conversation parts, 0 ≤ m.timestamp_sort) :
    List.Pairwise (fun a b : ThreadMessage => a.timestamp_sort ≤ b.timestamp_sort)
      (sortThreadMessages (buildThreadMessages tz conversation parts))
  ∧ (∀ k : Int,
      (sortThreadMessages (buildThreadMessages tz conversation parts)).filter
          (fun m => m.timestamp_sort == k) =
        (buildThreadMessages tz conversation parts).filter (fun m => m.timestamp_sort == k))
  ∧ List.Pairwise (fun a b : ThreadMessage => b.timestamp_sort = 0 → a.timestamp_sort = 0)
      (sortThreadMessages (buildThreadMessages tz conversation parts))
  ∧ (get_conversation_thread 0 envOrder).map
      (fun d => d.thread_messages.map (fun m => (m.message, m.timestamp_sort))) =
      some [("m0", 0), ("m1", 100), ("m2", 200)] := by
  refine ⟨sorted_sortThreadMessages _, sortThreadMessages_filter_key _, ?_, rfl⟩
  apply List.Pairwise.imp_of_mem ?_ (sorted_sortThreadMessages (buildThreadMessages tz conversation parts))
  intro a b ha hb hab hb0
  have ha' : a ∈ buildThreadMessages tz conversation parts :=
    (List.perm_insertionSort _ _).subset ha
  have hpa := hpos a ha'
  omega

/-- Witness for C4 at a concrete input: the `[t2, t0, t1]` fixture. -/
theorem C4_witness :
    (∀ m ∈ buildThreadMessages 0 ordConv ordConv.conversation_parts, 0 ≤ m.timestamp_sort)
  ∧ (sortThreadMessages (buildThreadMessages 0 ordConv ordConv.conversation_parts)).filter
        (fun m => m.timestamp_sort == (0 : Int)) =
      (buildThreadMessages 0 ordConv ordConv.conversation_parts).filter
        (fun m => m.timestamp_sort == (0 : Int)) :=
  ⟨by decide, (C4_thread_sorted_stable 0 ordConv ordConv.conversation_parts (by decide)).2.1 0⟩

end AduriteHook

namespace AduriteHook

/-- Single-character containment is membership. -/
theorem pyContains_single_iff (c : Char) (l : List Char) : pyContains [c] l = true ↔ c ∈ l := by
  induction l with
  | nil => simp [pyContains]
  | cons x rest ih =>
    rw [pyContains]
    simp only [List.length_singleton, List.take_succ_cons, List.take_zero, Bool.or_eq_true,
      decide_eq_true_eq, List.cons.injEq, and_true, List.mem_cons, ih]
    constructor
    · rintro (h | h)
      · exact Or.inl h.symm
      · exact Or.inr h
    · rintro (h | h)
      · exact Or.inl h.symm
      · exact Or.inr h

/-- The decimal digit characters: digits, their code points, and their
difference from the structural characters of an ISO timestamp. -/
theorem digitChar_facts : ∀ k, k < 10 →
    (Char.ofNat (48 + k)).isDigit = true ∧ (Char.ofNat (48 + k)).toNat = 48 + k ∧
    Char.ofNat (48 + k) ≠ 'Z' := by decide

/-- A digit character is not one of the ISO structural characters. -/
theorem isDigit_ne (c : Char) (h : c.isDigit = true) : c ≠ 'Z' ∧ c ≠ '+' ∧ c ≠ 'T' := by
  refine ⟨?_, ?_, ?_⟩ <;> rintro rfl <;> exact absurd h (by decide)

/-- Both characters of `pad2 n` (`n < 100`) are digits. -/
theorem pad2_isDigit (n : Nat) (h : n < 100) : ∀ c ∈ pad2 n, c.isDigit = true := by
  intro c hc
  have h1 := digitChar_facts (n / 10) (by omega)
  have h2 := digitChar_facts (n % 10) (by omega)
  simp only [pad2, List.mem_cons, List.not_mem_nil, or_false] at hc
  rcases hc with rfl | rfl
  · exact h1.1
  · exact h2.1

/-- Reading back `pad2`. -/
theorem digit2_pad2 (n : Nat) (h : n < 100) :
    digit2 (Char.ofNat (48 + n / 10)) (Char.ofNat (48 + n % 10)) = some n := by
  have h1 := digitChar_facts (n / 10) (by omega)
  have h2 := digitChar_facts (n % 10) (by omega)
  simp only [digit2, h1.1, h2.1, and_self, if_true, h1.2.1, h2.2.1, Option.some.injEq]
  omega

/-- Python `str.replace` distributes over append. -/
theorem pyReplaceChar_append (a : Char) (b : List Char) (l r : List Char) :
    pyReplaceChar a b (l ++ r) = pyReplaceChar a b l ++ pyReplaceChar a b r := by
  induction l with
  | nil => simp [pyReplaceChar]
  | cons c rest ih => simp [pyReplaceChar, ih]

/-- Python `str.replace` is the identity when the pattern does not occur. -/
theorem pyReplaceChar_of_not_mem (a : Char) (b : List Char) (l : List Char) (h : a ∉ l) :
    pyReplaceChar a b l = l := by
  induction l with
  | nil => rfl
  | cons c rest ih =>
    simp only [List.mem_cons, not_or] at h
    simp [pyReplaceChar, Ne.symm h.1, ih h.2]

/-- Reading back `pad4`. -/
theorem digit4_pad4 (y : Nat) (h : y < 10000) :
    digit4 (Char.ofNat (48 + y / 100 / 10)) (Char.ofNat (48 + y / 100 % 10))
      (Char.ofNat (48 + y % 100 / 10)) (Char.ofNat (48 + y % 100 % 10)) = some y := by
  simp only [digit4, digit2_pad2 (y / 100) (by omega), digit2_pad2 (y % 100) (by omega),
    Option.some.injEq]
  omega

/-- Every month has at most 31 days. -/
theorem daysInMonth_le (y m : Nat) : daysInMonth y m ≤ 31 := by
  unfold daysInMonth
  split
  · split <;> omega
  · split <;> omega

/-- Parsing a constructed `YYYY-MM-DDTHH:MM:SS+HH:MM` string recovers
the epoch value of its components, minus the offset. -/
theorem pyFromIsoformat_plus (tz : Int) (y mo d h mi s oh om : Nat)
    (hy1 : 1 ≤ y) (hy2 : y < 10000) (hmo1 : 1 ≤ mo) (hmo2 : mo ≤ 12)
    (hd1 : 1 ≤ d) (hd2 : d ≤ daysInMonth y mo) (hh : h ≤ 23) (hmi : mi ≤ 59) (hs : s ≤ 59)
    (hoh : oh ≤ 23) (hom : om ≤ 59) :
    pyFromIsoformat tz (isoDT y mo d h mi s ++ '+' :: (pad2 oh ++ ':' :: pad2 om)) =
      some (epochOfUTC y mo d h mi s - (3600 * oh + 60 * om)) := by
  have e2 : ∀ n : Nat, pad2 n = [Char.ofNat (48 + n / 10), Char.ofNat (48 + n % 10)] :=
    fun n => rfl
  simp only [isoDT, pad4, e2, List.cons_append, List.nil_append, List.append_assoc]
  simp only [pyFromIsoformat, digit4_pad4 y hy2,
    digit2_pad2 mo (by omega), digit2_pad2 d (by have := daysInMonth_le y mo; omega), digit2_pad2 h (by omega),
    digit2_pad2 mi (by omega), digit2_pad2 s (by omega),
    digit2_pad2 oh (by omega), digit2_pad2 om (by omega),
    parseTimeTail, parseOffTail,
    hy1, hmo1, hmo2, hd1, hd2, hh, hmi, hs, hoh, hom,
    and_self, and_true, true_and, if_true, epochOfUTC]

/-- The letter `'Z'` does not occur in a constructed `YYYY-MM-DDTHH:MM:SS`. -/
theorem Z_not_mem_isoDT (y mo d h mi s : Nat) (hy : y < 10000) (hmo : mo < 100)
    (hd : d < 100) (hh : h < 100) (hmi : mi < 100) (hs : s < 100) :
    'Z' ∉ isoDT y mo d h mi s := by
  intro hc
  have e2 : ∀ n : Nat, pad2 n = [Char.ofNat (48 + n / 10), Char.ofNat (48 + n % 10)] :=
    fun n => rfl
  simp only [isoDT, pad4, e2, List.mem_append, List.mem_cons, List.not_mem_nil, or_false,
    List.cons_append, List.nil_append] at hc
  rcases hc with hc|hc|hc|hc|hc|hc|hc|hc|hc|hc|hc|hc|hc|hc|hc|hc|hc|hc|hc <;>
    first
      | exact (digitChar_facts _ (by omega)).2.2 hc.symm
      | exact absurd hc (by decide)

/-- The letter `'Z'` does not occur in a constructed `+HH:MM` suffix. -/
theorem Z_not_mem_plusTail (oh om : Nat) (hoh : oh < 100) (hom : om < 100) :
    'Z' ∉ '+' :: (pad2 oh ++ ':' :: pad2 om) := by
  intro hc
  have e2 : ∀ n : Nat, pad2 n = [Char.ofNat (48 + n / 10), Char.ofNat (48 + n % 10)] :=
    fun n => rfl
  simp only [e2, List.mem_append, List.mem_cons, List.not_mem_nil, or_false,
    List.cons_append, List.nil_append] at hc
  rcases hc with hc|hc|hc|hc|hc|hc <;>
    first
      | exact (digitChar_facts _ (by omega)).2.2 hc.symm
      | exact absurd hc (by decide)

/-- Reduction of `_parse_timestamp` through its ISO branch. -/
theorem parse_str_branch1 (tz : Int) (s : String) (hne : s ≠ "")
    (hT : pyContains ['T'] s.data = true)
    (hZp : pyContains ['Z'] s.data = true ∨ pyContains ['+'] s.data = true) (v : Int)
    (hp : pyFromIsoformat tz (pyReplaceChar 'Z' "+00:00".data s.data) = some v) :
    _parse_timestamp tz (.str s) = v := by
  rcases hZp with hZ | hPl
  · simp [_parse_timestamp, tsTruthy, hne, hT, hZ, hp]
  · simp [_parse_timestamp, tsTruthy, hne, hT, hPl, hp]

/-- Applying `_parse_timestamp` to a constructed `...Z` string yields the UTC
epoch value of the components. -/
theorem parse_ts_isoZ (tz : Int) (y mo d h mi s : Nat)
    (hy1 : 1 ≤ y) (hy2 : y < 10000) (hmo1 : 1 ≤ mo) (hmo2 : mo ≤ 12)
    (hd1 : 1 ≤ d) (hd2 : d ≤ daysInMonth y mo) (hh : h ≤ 23) (hmi : mi ≤ 59) (hs : s ≤ 59) :
    _parse_timestamp tz (.str (isoZstr y mo d h mi s)) = epochOfUTC y mo d h mi s := by
  have hd31 := daysInMonth_le y mo
  have hdata : (isoZstr y mo d h mi s).data = isoDT y mo d h mi s ++ ['Z'] := rfl
  have hZnm : 'Z' ∉ isoDT y mo d h mi s :=
    Z_not_mem_isoDT y mo d h mi s (by omega) (by omega) (by omega) (by omega) (by omega) (by omega)
  have hne : isoZstr y mo d h mi s ≠ "" := by
    intro he
    have hd0 := congrArg String.data he
    rw [hdata] at hd0
    simp at hd0
  have hT : pyContains ['T'] (isoZstr y mo d h mi s).data = true := by
    rw [pyContains_single_iff, hdata]
    simp [isoDT]
  have hZ : pyContains ['Z'] (isoZstr y mo d h mi s).data = true := by
    rw [pyContains_single_iff, hdata]
    simp
  have hsuffix : pyReplaceChar 'Z' "+00:00".data ['Z'] = '+' :: (pad2 0 ++ ':' :: pad2 0) := by
    decide
  have hrepl : pyReplaceChar 'Z' "+00:00".data (isoZstr y mo d h mi s).data =
      isoDT y mo d h mi s ++ '+' :: (pad2 0 ++ ':' :: pad2 0) := by
    rw [hdata, pyReplaceChar_append, pyReplaceChar_of_not_mem _ _ _ hZnm, hsuffix]
  have hparse := pyFromIsoformat_plus tz y mo d h mi s 0 0 hy1 hy2 hmo1 hmo2 hd1 hd2 hh hmi hs
    (by omega) (by omega)
  refine parse_str_branch1 tz _ hne hT (Or.inl hZ) _ ?_
  rw [hrepl, hparse]
  norm_num

/-- Applying `_parse_timestamp` to a constructed `...+HH:MM` string yields the
epoch value minus the offset. -/
theorem parse_ts_isoPlus (tz : Int) (y mo d h mi s oh om : Nat)
    (hy1 : 1 ≤ y) (hy2 : y < 10000) (hmo1 : 1 ≤ mo) (hmo2 : mo ≤ 12)
    (hd1 : 1 ≤ d) (hd2 : d ≤ daysInMonth y mo) (hh : h ≤ 23) (hmi : mi ≤ 59) (hs : s ≤ 59)
    (hoh : oh ≤ 23) (hom : om ≤ 59) :
    _parse_timestamp tz (.str (isoPlusStr y mo d h mi s oh om)) =
      epochOfUTC y mo d h mi s - (3600 * oh + 60 * om) := by
  have hd31 := daysInMonth_le y mo
  have hdata : (isoPlusStr y mo d h mi s oh om).data =
      isoDT y mo d h mi s ++ '+' :: (pad2 oh ++ ':' :: pad2 om) := rfl
  have hZnm : 'Z' ∉ (isoPlusStr y mo d h mi s oh om).data := by
    rw [hdata]
    intro hc
    rcases List.mem_append.mp hc with hc | hc
    · exact Z_not_mem_isoDT y mo d h mi s (by omega) (by omega) (by omega) (by omega)
        (by omega) (by omega) hc
    · exact Z_not_mem_plusTail oh om (by omega) (by omega) hc
  have hne : isoPlusStr y mo d h mi s oh om ≠ "" := by
    intro he
    have hd0 := congrArg String.data he
    rw [hdata] at hd0
    simp at hd0
  have hT : pyContains ['T'] (isoPlusStr y mo d h mi s oh om).data = true := by
    rw [pyContains_single_iff, hdata]
    simp [isoDT]
  have hPl : pyContains ['+'] (isoPlusStr y mo d h mi s oh om).data = true := by
    rw [pyContains_single_iff, hdata]
    simp
  refine parse_str_branch1 tz _ hne hT (Or.inr hPl) _ ?_
  rw [pyReplaceChar_of_not_mem _ _ _ hZnm, hdata]
  exact pyFromIsoformat_plus tz y mo d h mi s oh om hy1 hy2 hmo1 hmo2 hd1 hd2 hh hmi hs hoh hom

/-- C5: `_parse_timestamp` keeps integer `createdAt` values unchanged,
maps a constructed ISO-8601 `YYYY-MM-DDTHH:MM:SS` string with `Z` or
`+HH:MM` offset to its epoch seconds, maps a bare digit string to its
integer value, and yields `0` — instead of raising — for `None`/other
types, for the absent-key default `"Unknown"`, and for every string
that none of its parsing attempts accepts. -/
theorem C5_parse_timestamp (tz : Int) :
    (∀ n : Int, _parse_timestamp tz (.int n) = n)
  ∧ _parse_timestamp tz .other = 0
  ∧ _parse_timestamp tz (.str "Unknown") = 0
  ∧ _parse_timestamp tz (.str "not a date") = 0
  ∧ (∀ (s : String) (n : Nat), s.toNat? = some n → _parse_timestamp tz (.str s) = n)
  ∧ (∀ y mo d h mi s : Nat, 1 ≤ y → y < 10000 → 1 ≤ mo → mo ≤ 12 → 1 ≤ d →
      d ≤ daysInMonth y mo → h ≤ 23 → mi ≤ 59 → s ≤ 59 →
      _parse_timestamp tz (.str (isoZstr y mo d h mi s)) = epochOfUTC y mo d h mi s)
  ∧ (∀ y mo d h mi s oh om : Nat, 1 ≤ y → y < 10000 → 1 ≤ mo → mo ≤ 12 → 1 ≤ d →
      d ≤ daysInMonth y mo → h ≤ 23 → mi ≤ 59 → s ≤ 59 → oh ≤ 23 → om ≤ 59 →
      _parse_timestamp tz (.str (isoPlusStr y mo d h mi s oh om)) =
        epochOfUTC y mo d h mi s - (3600 * oh + 60 * om))
  ∧ (∀ s : String, s ≠ "" →
      pyFromIsoformat tz (pyReplaceChar 'Z' "+00:00".data s.data) = none →
      pyIsdigitStr s = false → pyFromIsoformat tz s.data = none →
      _parse_timestamp tz (.str s) = 0) := by
  refine ⟨?_, rfl, rfl, rfl, ?_, ?_, ?_, ?_⟩
  · intro n
    by_cases h : n = 0
    · subst h; rfl
    · simp [_parse_timestamp, tsTruthy, h]
  · intro s n htn
    have hNat : s.isNat = true := by
      by_contra hn
      simp [String.toNat?, hn] at htn
    have hcomp := hNat
    rw [String.isNat, Bool.and_eq_true, String.all_eq] at hcomp
    have hne : s ≠ "" := by
      intro he
      rw [he] at hcomp
      exact absurd hcomp.1 (by decide)
    have hdig : s.data.all Char.isDigit = true := hcomp.2
    have hTc : pyContains ['T'] s.data = false := by
      rw [Bool.eq_false_iff]
      intro hc
      have hm := (pyContains_single_iff _ _).mp hc
      have := List.all_eq_true.mp hdig _ hm
      exact absurd this (by decide)
    have hid : pyIsdigitStr s = true := by
      simp only [pyIsdigitStr, Bool.and_eq_true, decide_eq_true_eq]
      exact ⟨hne, hdig⟩
    simp [_parse_timestamp, tsTruthy, hne, hTc, hid, htn]
  · intro y mo d h mi s hy1 hy2 hmo1 hmo2 hd1 hd2 hh hmi hs
    exact parse_ts_isoZ tz y mo d h mi s hy1 hy2 hmo1 hmo2 hd1 hd2 hh hmi hs
  · intro y mo d h mi s oh om hy1 hy2 hmo1 hmo2 hd1 hd2 hh hmi hs hoh hom
    exact parse_ts_isoPlus tz y mo d h mi s oh om hy1 hy2 hmo1 hmo2 hd1 hd2 hh hmi hs hoh hom
  · intro s h1 h2 h3 h4
    by_cases hT : pyContains ['T'] s.data = true
    · by_cases hZ : pyContains ['Z'] s.data = true
      · simp [_parse_timestamp, tsTruthy, h1, hT, hZ, h2]
      · by_cases hP : pyContains ['+'] s.data = true
        · simp [_parse_timestamp, tsTruthy, h1, hT, hP, h2]
        · simp [_parse_timestamp, tsTruthy, h1, hT, hZ, hP, h3, h4]
    · simp [_parse_timestamp, tsTruthy, h1, hT, h3, h4]

/-- Witness for C5 at a concrete input: `2024-01-15T10:30:00Z`. -/
theorem C5_witness :
    _parse_timestamp 0 (.str (isoZstr 2024 1 15 10 30 0)) = epochOfUTC 2024 1 15 10 30 0
  ∧ isoZstr 2024 1 15 10 30 0 = "2024-01-15T10:30:00Z"
  ∧ epochOfUTC 2024 1 15 10 30 0 = 1705314600 :=
  ⟨(C5_parse_timestamp 0).2.2.2.2.2.1 2024 1 15 10 30 0 (by decide) (by decide) (by decide)
    (by decide) (by decide) (by decide) (by decide) (by decide) (by decide),
   by decide, by decide⟩

/-- A head character that is not a newline never creates the double
newline. -/
theorem hasDD_cons_ne (c : Char) (l : List Char) (hc : c ≠ '\n') :
    hasDD (c :: l) = hasDD l := by
  cases l with
  | nil => rfl
  | cons d l' => simp [hasDD, hc]

/-- Nor does any head when the next character is not a newline. -/
theorem hasDD_cons_of_head_ne (c : Char) (l : List Char) (hl : l.head? ≠ some '\n') :
    hasDD (c :: l) = hasDD l := by
  cases l with
  | nil => rfl
  | cons d l' =>
    have hd : d ≠ '\n' := by
      intro h
      exact hl (by rw [h]; rfl)
    simp [hasDD, hd]

/-- Dropping the head preserves freedom from double newlines. -/
theorem hasDD_of_cons (c : Char) (l : List Char) (h : hasDD (c :: l) = false) :
    hasDD l = false := by
  cases l with
  | nil => rfl
  | cons d l' =>
    simp only [hasDD, Bool.or_eq_false_iff] at h
    exact h.2

/-- A list without newlines has no double newline. -/
theorem hasDD_of_no_nl (l : List Char) (h : '\n' ∉ l) : hasDD l = false := by
  induction l with
  | nil => rfl
  | cons c rest ih =>
    simp only [List.mem_cons, not_or] at h
    rw [hasDD_cons_ne c rest (fun he => h.1 he.symm)]
    exact ih h.2

/-- Appending double-newline-free lists whose seam is not a double
newline stays double-newline-free. -/
theorem hasDD_append_false (u v : List Char) (hu : hasDD u = false) (hv : hasDD v = false)
    (hb : u.getLast? = some '\n' → v.head? ≠ some '\n') : hasDD (u ++ v) = false := by
  induction u with
  | nil => simpa using hv
  | cons c u' ih =>
    cases u' with
    | nil =>
      cases v with
      | nil => rfl
      | cons d v' =>
        have hcd : ¬(c = '\n' ∧ d = '\n') := by
          rintro ⟨rfl, rfl⟩
          exact hb rfl rfl
        simp only [List.singleton_append, List.cons_append, List.nil_append, hasDD,
          Bool.or_eq_false_iff]
        constructor
        · by_cases hc : c = '\n'
          · by_cases hd : d = '\n'
            · exact absurd ⟨hc, hd⟩ hcd
            · simp [hc, hd]
          · simp [hc]
        · exact hv
    | cons c2 u'' =>
      have hu2 : hasDD (c2 :: u'') = false := hasDD_of_cons c _ hu
      have hfirst : (c = '\n' && c2 = '\n') = false := by
        simp only [hasDD, Bool.or_eq_false_iff] at hu
        exact hu.1
      have hb2 : (c2 :: u'').getLast? = some '\n' → v.head? ≠ some '\n' := by
        intro hgl
        refine hb ?_
        rw [List.getLast?_cons_cons]
        exact hgl
      have := ih hu2 hb2
      simp only [List.cons_append, hasDD, Bool.or_eq_false_iff] at this ⊢
      exact ⟨hfirst, this⟩

/-- Decimal digit characters are never a newline. -/
theorem digitChar_ne_nl (n : Nat) : Nat.digitChar n ≠ '\n' := by
  by_cases h : n < 16
  · interval_cases n <;> decide
  · have e : Nat.digitChar n = '*' := by
      unfold Nat.digitChar
      rw [if_neg (show ¬ n = 0 by omega), if_neg (show ¬ n = 1 by omega),
        if_neg (show ¬ n = 2 by omega), if_neg (show ¬ n = 3 by omega),
        if_neg (show ¬ n = 4 by omega), if_neg (show ¬ n = 5 by omega),
        if_neg (show ¬ n = 6 by omega), if_neg (show ¬ n = 7 by omega),
        if_neg (show ¬ n = 8 by omega), if_neg (show ¬ n = 9 by omega),
        if_neg (show ¬ n = 10 by omega), if_neg (show ¬ n = 11 by omega),
        if_neg (show ¬ n = 12 by omega), if_neg (show ¬ n = 13 by omega),
        if_neg (show ¬ n = 14 by omega), if_neg (show ¬ n = 15 by omega)]
    rw [e]
    decide

/-- The core digit printer adds no newline. -/
theorem toDigitsCore_no_nl (b : Nat) (fuel : Nat) :
    ∀ (n : Nat) (ds : List Char), '\n' ∉ ds → '\n' ∉ Nat.toDigitsCore b fuel n ds := by
  induction fuel with
  | zero => intro n ds h; exact h
  | succ fuel ih =>
    intro n ds h
    rw [Nat.toDigitsCore]
    split
    · intro hm
      rcases List.mem_cons.mp hm with hm | hm
      · exact digitChar_ne_nl _ hm.symm
      · exact h hm
    · refine ih _ _ ?_
      intro hm
      rcases List.mem_cons.mp hm with hm | hm
      · exact digitChar_ne_nl _ hm.symm
      · exact h hm

/-- The decimal representation of a natural number contains no
newline. -/
theorem repr_no_nl (n : Nat) : '\n' ∉ (toString n).data := by
  show '\n' ∉ ((Nat.toDigits 10 n).asString).data
  rw [Nat.toDigits]
  exact toDigitsCore_no_nl 10 (n + 1) n [] (by simp)

/-- Unfolding `groupRuns` through `consRun`. -/
theorem groupRuns_cons (m : ThreadMessage) (rest : List ThreadMessage) :
    groupRuns (m :: rest) = consRun m.author [m.message] (groupRuns rest) := by
  cases h : groupRuns rest with
  | nil => simp [groupRuns, consRun, h]
  | cons r t =>
    cases r with
    | mk a ms =>
      by_cases h2 : m.author = a
      · subst h2
        simp [groupRuns, consRun, h]
      · simp [groupRuns, consRun, h, h2]

/-- Merging two pending runs of the same author. -/
theorem consRun_merge (a : String) (ms ns : List String) (R : List (String × List String)) :
    consRun a ms (consRun a ns R) = consRun a (ms ++ ns) R := by
  cases R with
  | nil => simp [consRun]
  | cons r t =>
    cases r with
    | mk b ks =>
      by_cases hab : a = b
      · subst hab
        simp [consRun]
      · simp [consRun, hab]

/-- Prepending a pending run of a different author. -/
theorem consRun_ne (a b : String) (ms ns : List String) (R : List (String × List String))
    (hab : a ≠ b) : consRun a ms (consRun b ns R) = (a, ms) :: consRun b ns R := by
  cases R with
  | nil => simp [consRun, hab]
  | cons r t =>
    cases r with
    | mk c ks =>
      by_cases hbc : b = c
      · subst hbc
        simp [consRun, hab]
      · simp [consRun, hbc, hab]

/-- The `_format_conversation_thread` loop computes the per-run
formatting of the contiguous same-author runs: from a state holding the
pending run `(a, ms)` and flushed parts `P`, the fold plus final flush
yields `P` followed by one formatted block per run of
`consRun a ms (groupRuns msgs)`. -/
theorem formatFold_spec (msgs : List ThreadMessage) :
    ∀ (P : List String) (a : String) (ms : List String), a ≠ "" →
    (∀ m ∈ msgs, m.author ≠ "") → ms ≠ [] →
    finishFold (msgs.foldl formatThreadStep (P, some a, ms)) =
      P ++ (consRun a ms (groupRuns msgs)).map
        (fun run => _format_message_group run.1 run.2) := by
  induction msgs with
  | nil =>
    intro P a ms ha _ hms
    simp [finishFold, groupRuns, consRun, ha, hms]
  | cons m rest ih =>
    intro P a ms ha hall hms
    have hm : m.author ≠ "" := hall m (by simp)
    have hall' : ∀ x ∈ rest, x.author ≠ "" := fun x hx => hall x (by simp [hx])
    rw [List.foldl_cons, groupRuns_cons]
    by_cases heq : a = m.author
    · have hstep : formatThreadStep (P, some a, ms) m = (P, some m.author, ms ++ [m.message]) := by
        simp [formatThreadStep, heq]
      rw [hstep, ih P m.author (ms ++ [m.message]) hm hall' (by simp)]
      rw [heq, consRun_merge]
    · have hstep : formatThreadStep (P, some a, ms) m =
          (P ++ [_format_message_group a ms], some m.author, [m.message]) := by
        simp [formatThreadStep, ha, heq]
      rw [hstep, ih (P ++ [_format_message_group a ms]) m.author [m.message] hm hall' (by simp)]
      rw [consRun_ne a m.author ms [m.message] (groupRuns rest) heq]
      simp

/-- The renderer `_format_conversation_thread` produces exactly one block per
contiguous same-author run, joined by the separator, whenever no author
display string is empty. -/
theorem format_thread_runs (msgs : List ThreadMessage) (hne : msgs ≠ [])
    (hauth : ∀ m ∈ msgs, m.author ≠ "") :
    _format_conversation_thread msgs =
      pyJoin "\n\n---\n\n" ((groupRuns msgs).map
        (fun run => _format_message_group run.1 run.2)) := by
  cases msgs with
  | nil => exact absurd rfl hne
  | cons m rest =>
    have h0 : _format_conversation_thread (m :: rest) =
        pyJoin "\n\n---\n\n" (finishFold ((m :: rest).foldl formatThreadStep ([], none, []))) := by
      simp [_format_conversation_thread, finishFold]
    have hstep0 : formatThreadStep ([], none, []) m = ([], some m.author, [m.message]) := by
      simp [formatThreadStep]
    rw [h0, List.foldl_cons, hstep0,
      formatFold_spec rest [] m.author [m.message] (hauth m (by simp))
        (fun x hx => hauth x (by simp [hx])) (by simp),
      groupRuns_cons]
    simp

/-- Character-level view of joining with the separator. -/
theorem pyJoin_sep_data (parts : List String) :
    (pyJoin "\n\n---\n\n" parts).data = joinSep (parts.map String.data) := by
  induction parts with
  | nil => rfl
  | cons p rest ih =>
    cases rest with
    | nil => rfl
    | cons q rest' =>
      show (p ++ "\n\n---\n\n" ++ pyJoin "\n\n---\n\n" (q :: rest')).data = _
      rw [String.data_append, String.data_append, ih]
      rfl

/-- Character-level view of joining with a newline. -/
theorem pyJoin_nl_data (parts : List String) :
    (pyJoin "\n" parts).data = joinNL (parts.map String.data) := by
  induction parts with
  | nil => rfl
  | cons p rest ih =>
    cases rest with
    | nil => rfl
    | cons q rest' =>
      show (p ++ "\n" ++ pyJoin "\n" (q :: rest')).data = _
      rw [String.data_append, String.data_append, ih]
      simp [joinNL, List.append_assoc]

/-- One numbered line `"<i>. <m>"` of a multi-message block: no double
newline, non-empty, and neither starting nor ending with a newline
(provided the message has no double newline and does not end with
one). -/
theorem item_props (i : Nat) (m : String) (hm : hasDD m.data = false)
    (hml : m.data.getLast? ≠ some '\n') :
    hasDD (toString i ++ ". " ++ m).data = false
  ∧ (toString i ++ ". " ++ m).data ≠ []
  ∧ (toString i ++ ". " ++ m).data.head? ≠ some '\n'
  ∧ (toString i ++ ". " ++ m).data.getLast? ≠ some '\n' := by
  have hdata : (toString i ++ ". " ++ m).data = (toString i).data ++ '.' :: ' ' :: m.data := by
    rw [String.data_append, String.data_append]
    simp [List.append_assoc]
  have hw := repr_no_nl i
  have hwDD : hasDD (toString i).data = false := hasDD_of_no_nl _ hw
  refine ⟨?_, ?_, ?_, ?_⟩
  · rw [hdata]
    refine hasDD_append_false _ _ hwDD ?_ ?_
    · rw [hasDD_cons_ne '.' _ (by decide), hasDD_cons_ne ' ' _ (by decide)]
      exact hm
    · intro hl
      exact absurd (List.mem_of_getLast?_eq_some hl) hw
  · rw [hdata]
    simp
  · rw [hdata]
    intro hh
    rw [List.head?_append] at hh
    cases hwh : (toString i).data.head? with
    | none => rw [hwh] at hh; simp at hh
    | some c =>
      rw [hwh] at hh
      simp only [Option.or_some, Option.some.injEq] at hh
      obtain ⟨ys, hys⟩ := List.head?_eq_some_iff.mp hwh
      subst hh
      exact hw (by rw [hys]; simp)
  · rw [hdata]
    intro hl
    rw [show ('.' :: ' ' :: m.data) = ['.', ' '] ++ m.data from rfl, ← List.append_assoc,
      List.getLast?_append] at hl
    cases hml2 : m.data.getLast? with
    | none => rw [hml2] at hl; simp at hl
    | some c =>
      rw [hml2] at hl
      simp only [Option.or_some, Option.some.injEq] at hl
      subst hl
      exact hml hml2

/-- Joining newline-free-boundary items with single newlines creates no
double newline, and the result does not start with a newline. -/
theorem hasDD_joinNL (items : List (List Char))
    (h : ∀ it ∈ items, hasDD it = false ∧ it ≠ [] ∧ it.head? ≠ some '\n' ∧
      it.getLast? ≠ some '\n') :
    hasDD (joinNL items) = false ∧ (joinNL items).head? ≠ some '\n' := by
  induction items with
  | nil => exact ⟨rfl, by simp [joinNL]⟩
  | cons p rest ih =>
    cases rest with
    | nil =>
      obtain ⟨h1, _, h3, _⟩ := h p (by simp)
      exact ⟨h1, h3⟩
    | cons q rest' =>
      obtain ⟨hp, hpne, hph, hpl⟩ := h p (by simp)
      have ih' := ih (fun it hit => h it (by simp [hit]))
      have hJ := ih'.1
      have hJh := ih'.2
      have hstep : joinNL (p :: q :: rest') = p ++ '\n' :: joinNL (q :: rest') := rfl
      constructor
      · rw [hstep]
        refine hasDD_append_false _ _ hp ?_ ?_
        · rw [hasDD_cons_of_head_ne _ _ hJh]
          exact hJ
        · intro hl
          exact absurd hl hpl
      · rw [hstep]
        intro hh
        rw [List.head?_append] at hh
        cases p with
        | nil => exact hpne rfl
        | cons c cs =>
          simp only [List.head?_cons, Option.or_some, Option.some.injEq] at hh
          exact hph (by rw [hh]; rfl)

/-- A formatted same-author block contains no double newline, provided
the author has none and every message has none and does not end with a
newline. -/
theorem hasDD_format_group (a : String) (ms : List String)
    (ha : hasDD a.data = false)
    (hms : ∀ m ∈ ms, hasDD m.data = false ∧ m.data.getLast? ≠ some '\n') :
    hasDD (_format_message_group a ms).data = false := by
  unfold _format_message_group
  by_cases hlen : ms.length = 1
  · rw [if_pos hlen]
    have hm : hasDD (ms.headD "").data = false ∧ (ms.headD "").data.getLast? ≠ some '\n' := by
      cases ms with
      | nil => simp at hlen
      | cons m0 rest => exact ⟨(hms m0 (by simp)).1, (hms m0 (by simp)).2⟩
    have hd : ("**" ++ a ++ ":** " ++ ms.headD "").data =
        '*' :: '*' :: (a.data ++ ':' :: '*' :: '*' :: ' ' :: (ms.headD "").data) := by
      rw [String.data_append, String.data_append, String.data_append]
      simp [List.append_assoc]
    rw [hd, hasDD_cons_ne '*' _ (by decide), hasDD_cons_ne '*' _ (by decide)]
    refine hasDD_append_false _ _ ha ?_ ?_
    · rw [hasDD_cons_ne ':' _ (by decide), hasDD_cons_ne '*' _ (by decide),
        hasDD_cons_ne '*' _ (by decide), hasDD_cons_ne ' ' _ (by decide)]
      exact hm.1
    · intro _
      simp
  · rw [if_neg hlen]
    have hitem : ∀ it ∈ ((List.enumFrom 1 ms).map
        (fun p => toString p.1 ++ ". " ++ p.2)).map String.data,
        hasDD it = false ∧ it ≠ [] ∧ it.head? ≠ some '\n' ∧ it.getLast? ≠ some '\n' := by
      intro it hit
      simp only [List.map_map, List.mem_map, Function.comp] at hit
      obtain ⟨⟨i, m⟩, hmem, rfl⟩ := hit
      have hm' : m ∈ ms := by
        have h2 := List.mem_map_of_mem Prod.snd hmem
        rw [List.enumFrom_map_snd] at h2
        exact h2
      exact item_props i m (hms m hm').1 (hms m hm').2
    have hJ := hasDD_joinNL _ hitem
    rw [← pyJoin_nl_data] at hJ
    have hd : ("**" ++ a ++ ":**\n" ++ pyJoin "\n" ((List.enumFrom 1 ms).map
        (fun p => toString p.1 ++ ". " ++ p.2))).data =
        '*' :: '*' :: (a.data ++ ':' :: '*' :: '*' :: '\n' ::
          (pyJoin "\n" ((List.enumFrom 1 ms).map (fun p => toString p.1 ++ ". " ++ p.2))).data) := by
      rw [String.data_append, String.data_append, String.data_append]
      simp [List.append_assoc]
    rw [hd, hasDD_cons_ne '*' _ (by decide), hasDD_cons_ne '*' _ (by decide)]
    refine hasDD_append_false _ _ ha ?_ ?_
    · rw [hasDD_cons_ne ':' _ (by decide), hasDD_cons_ne '*' _ (by decide),
        hasDD_cons_ne '*' _ (by decide), hasDD_cons_of_head_ne _ _ hJ.2]
      exact hJ.1
    · intro _
      simp

/-- The splitter consumes a leading separator. -/
theorem splitOnSep_sep_head (r : List Char) :
    splitOnSep (sepChars ++ r) = [] :: splitOnSep r := by
  show splitOnSep ('\n' :: ('\n' :: '-' :: '-' :: '-' :: '\n' :: '\n' :: r)) = _
  rw [splitOnSep]
  simp [sepChars]

/-- A double-newline-free segment contains no separator: the splitter
returns it whole. -/
theorem splitOnSep_no_sep (p : List Char) (hp : hasDD p = false) : splitOnSep p = [p] := by
  induction p with
  | nil => simp [splitOnSep]
  | cons c p' ih =>
    have hcond : ¬ ((c :: p').take 7 = sepChars) := by
      intro hc
      cases p' with
      | nil => simp [sepChars] at hc
      | cons d p'' =>
        rw [List.take_succ_cons, List.take_succ_cons] at hc
        simp only [sepChars, List.cons.injEq] at hc
        obtain ⟨rfl, rfl, -⟩ := hc
        simp [hasDD] at hp
    rw [splitOnSep, if_neg hcond, ih (hasDD_of_cons c p' hp)]

/-- The splitter peels a double-newline-free segment followed by the
separator. -/
theorem splitOnSep_append_sep (p r : List Char) (hp : hasDD p = false) :
    splitOnSep (p ++ (sepChars ++ r)) = p :: splitOnSep r := by
  induction p with
  | nil =>
    rw [List.nil_append, splitOnSep_sep_head]
  | cons c p' ih =>
    rw [List.cons_append]
    have hcond : ¬ ((c :: (p' ++ (sepChars ++ r))).take 7 = sepChars) := by
      intro hc
      cases p' with
      | nil =>
        rw [List.nil_append, List.take_succ_cons] at hc
        have h6 : (sepChars ++ r).take 6 = sepChars.take 6 :=
          List.take_append_of_le_length (by simp [sepChars])
        rw [h6] at hc
        simp [sepChars] at hc
      | cons d p'' =>
        rw [List.cons_append, List.take_succ_cons, List.take_succ_cons] at hc
        simp only [sepChars, List.cons.injEq] at hc
        obtain ⟨rfl, rfl, -⟩ := hc
        simp [hasDD] at hp
    rw [splitOnSep, if_neg hcond, ih (hasDD_of_cons c p' hp)]

/-- Splitting the separator-join of double-newline-free segments
recovers exactly the segments. -/
theorem splitOnSep_joinSep (parts : List (List Char)) (hne : parts ≠ [])
    (h : ∀ p ∈ parts, hasDD p = false) :
    splitOnSep (joinSep parts) = parts := by
  induction parts with
  | nil => exact absurd rfl hne
  | cons p rest ih =>
    cases rest with
    | nil => exact splitOnSep_no_sep p (h p (by simp))
    | cons q rest' =>
      have hj : joinSep (p :: q :: rest') = p ++ (sepChars ++ joinSep (q :: rest')) := by
        show p ++ sepChars ++ joinSep (q :: rest') = _
        rw [List.append_assoc]
      rw [hj, splitOnSep_append_sep p _ (h p (by simp)),
        ih (by simp) (fun x hx => h x (by simp [hx]))]

/-- Prepending via `consRun` never yields the empty run list. -/
theorem consRun_ne_nil (a : String) (ms : List String) (R : List (String × List String)) :
    consRun a ms R ≠ [] := by
  cases R with
  | nil => simp [consRun]
  | cons r t =>
    cases r with
    | mk b ns =>
      by_cases hab : a = b <;> simp [consRun, hab]

/-- Every run of `groupRuns` takes its author from some message and its
messages from messages of the list. -/
theorem groupRuns_mem (msgs : List ThreadMessage) :
    ∀ run ∈ groupRuns msgs, (∃ m ∈ msgs, m.author = run.1) ∧
      ∀ x ∈ run.2, ∃ m ∈ msgs, m.message = x := by
  induction msgs with
  | nil => simp [groupRuns]
  | cons m rest ih =>
    intro run hrun
    rw [groupRuns_cons] at hrun
    have lift : ∀ run' : String × List String, ((∃ m' ∈ rest, m'.author = run'.1) ∧
        ∀ x ∈ run'.2, ∃ m' ∈ rest, m'.message = x) →
        (∃ m' ∈ m :: rest, m'.author = run'.1) ∧
        ∀ x ∈ run'.2, ∃ m' ∈ m :: rest, m'.message = x := by
      rintro run' ⟨⟨m', hm', ha⟩, hx⟩
      refine ⟨⟨m', by simp [hm'], ha⟩, ?_⟩
      intro x hxm
      obtain ⟨m'', hm'', he⟩ := hx x hxm
      exact ⟨m'', by simp [hm''], he⟩
    cases hR : groupRuns rest with
    | nil =>
      rw [hR] at hrun
      simp only [consRun, List.mem_singleton] at hrun
      subst hrun
      exact ⟨⟨m, by simp, rfl⟩, fun x hx => ⟨m, by simp, (List.mem_singleton.mp hx).symm⟩⟩
    | cons r t =>
      rw [hR] at hrun
      cases r with
      | mk b ns =>
        have hbmem := ih (b, ns) (by rw [hR]; simp)
        simp only [consRun] at hrun
        by_cases hab : m.author = b
        · rw [if_pos hab] at hrun
          rcases List.mem_cons.mp hrun with heq | hmem
          · subst heq
            refine ⟨⟨m, by simp, rfl⟩, ?_⟩
            intro x hx
            rcases List.mem_cons.mp hx with rfl | hx2
            · exact ⟨m, by simp, rfl⟩
            · obtain ⟨m'', hm'', he⟩ := hbmem.2 x hx2
              exact ⟨m'', by simp [hm''], he⟩
          · exact lift run (ih run (by rw [hR]; simp [hmem]))
        · rw [if_neg hab] at hrun
          rcases List.mem_cons.mp hrun with heq | hmem
          · subst heq
            exact ⟨⟨m, by simp, rfl⟩, fun x hx => ⟨m, by simp, (List.mem_singleton.mp hx).symm⟩⟩
          · exact lift run (ih run (by rw [hR]; exact hmem))

/-- C6 (amended): for a non-empty message list whose author display
strings are non-empty and double-newline-free and whose message
contents are double-newline-free and do not end in a newline, splitting
the rendered body on `"\n\n---\n\n"` yields exactly one segment per
contiguous same-author run — namely that run's formatted block. -/
theorem C6_rendered_splits_into_runs (msgs : List ThreadMessage) (hne : msgs ≠ [])
    (hgood : ∀ m ∈ msgs, m.author ≠ "" ∧ hasDD m.author.data = false ∧
      hasDD m.message.data = false ∧ m.message.data.getLast? ≠ some '\n') :
    splitOnSep (_format_conversation_thread msgs).data =
      (groupRuns msgs).map (fun run => (_format_message_group run.1 run.2).data)
  ∧ (splitOnSep (_format_conversation_thread msgs).data).length = (groupRuns msgs).length := by
  have hformat := format_thread_runs msgs hne (fun m hm => (hgood m hm).1)
  have hrne : groupRuns msgs ≠ [] := by
    cases msgs with
    | nil => exact absurd rfl hne
    | cons m rest =>
      rw [groupRuns_cons]
      exact consRun_ne_nil _ _ _
  have hsplit : splitOnSep (_format_conversation_thread msgs).data =
      ((groupRuns msgs).map (fun run => _format_message_group run.1 run.2)).map String.data := by
    rw [hformat, pyJoin_sep_data]
    refine splitOnSep_joinSep _ (by simpa using hrne) ?_
    intro p hp
    rw [List.map_map] at hp
    obtain ⟨run, hrun, rfl⟩ := List.mem_map.mp hp
    obtain ⟨⟨ma, hma, hauth⟩, hmsgs⟩ := groupRuns_mem msgs run hrun
    apply hasDD_format_group
    · rw [← hauth]
      exact (hgood ma hma).2.1
    · intro x hx
      obtain ⟨mx, hmx, hxe⟩ := hmsgs x hx
      subst hxe
      exact ⟨(hgood mx hmx).2.2.1, (hgood mx hmx).2.2.2⟩
  constructor
  · rw [hsplit, List.map_map]
    rfl
  · rw [hsplit]
    simp

/-- C6 counterexample: a single message whose content contains the
separator substring.  There is one author run, but the rendered body
splits into two segments — the claim fails without a restriction on the
message contents. -/
theorem C6_counterexample_sep_in_message :
    (splitOnSep (_format_conversation_thread cexMsgs).data).length = 2
  ∧ (groupRuns cexMsgs).length = 1 := by
  constructor
  · have h1 : (_format_conversation_thread cexMsgs).data =
        "**A:** x".data ++ (sepChars ++ "y".data) := by decide
    rw [h1, splitOnSep_append_sep _ _ (by decide), splitOnSep_no_sep _ (by decide)]
    rfl
  · rfl

/-- Witness for C6 at a concrete input: two runs (`A`, `A`, then `B`). -/
theorem C6_witness :
    ([(⟨"A", "user", "x", 0, true, "comment", []⟩ : ThreadMessage),
      ⟨"A", "user", "y", 1, false, "comment", []⟩,
      ⟨"B", "user", "z", 2, false, "comment", []⟩] ≠ ([] : List ThreadMessage))
  ∧ splitOnSep (_format_conversation_thread
        [⟨"A", "user", "x", 0, true, "comment", []⟩,
         ⟨"A", "user", "y", 1, false, "comment", []⟩,
         ⟨"B", "user", "z", 2, false, "comment", []⟩]).data =
      (groupRuns
        [⟨"A", "user", "x", 0, true, "comment", []⟩,
         ⟨"A", "user", "y", 1, false, "comment", []⟩,
         ⟨"B", "user", "z", 2, false, "comment", []⟩]).map
        (fun run => (_format_message_group run.1 run.2).data) :=
  ⟨by decide,
   (C6_rendered_splits_into_runs
     [⟨"A", "user", "x", 0, true, "comment", []⟩,
      ⟨"A", "user", "y", 1, false, "comment", []⟩,
      ⟨"B", "user", "z", 2, false, "comment", []⟩] (by decide) (by decide)).1⟩

end AduriteHook
